/-
  Verification of the FlowLens server-side pipeline and query engine.

  This file shallowly embeds the Go source of FlowLens (graph query builder,
  call spine builder, tagger purity pass, store upsert semantics, entry-point
  handler resolution, cobra CLI detection, and the call-graph extractor) as
  executable Lean definitions, and proves or refutes the specification claims
  about them.

  Modelling conventions:
  * Go strings are modelled as Lean `String`; Go's byte-level operations
    (strings.HasPrefix / HasSuffix / Contains / Index / ToLower / Fields)
    are modelled char-wise via `String.data`.  All strings occurring in the
    claims are ASCII, where the byte-level and char-level readings agree.
  * SQLite integer ids are modelled as `Nat` (they are positive row ids in
    the database; `0` is the same "unresolved" sentinel the Go code uses).
  * Go `int` depth parameters are modelled as `Nat`: every use in the
    embedded code only tests `> 0` / `>= maxDepth`, so all negative values
    behave exactly like `0`, which `Nat` identifies with `0`.
  * Go map iteration order is unspecified; the embedding fixes the
    deterministic first-encounter order.  All proved and refuted statements
    are insensitive to this order (they are set/cardinality statements or
    use single-successor stores).
  * Recursive traversals (`expand`, `loadCalleesRecursive`,
    `determineMainPath`) terminate in Go because a depth counter approaches
    a bound; the embedding passes the remaining depth as structural fuel,
    keeping the Go depth guard verbatim so the fuel is never the binding
    constraint.
-/
import Mathlib

namespace FlowLens

/-! ## Go string primitives (byte-level semantics, char-wise on ASCII) -/

/-- Go `strings.HasPrefix`. -/
def goStartsWith (s pre : String) : Bool :=
  pre.data.isPrefixOf s.data

/-- Go `strings.HasSuffix`. -/
def goEndsWith (s suf : String) : Bool :=
  suf.data.isSuffixOf s.data

/-- Go `strings.Contains` with a single-character needle. -/
def goContainsChar (s : String) (c : Char) : Bool :=
  s.data.contains c

/-- Go `strings.Contains` with a string needle: some tail of `s` starts
    with `sub`. -/
def goContains (s sub : String) : Bool :=
  s.data.tails.any (fun t => sub.data.isPrefixOf t)

/-- Go slicing `s[:len(s)-n]` (drop the last `n` bytes). -/
def goDropRight (s : String) (n : Nat) : String :=
  ⟨s.data.take (s.data.length - n)⟩

/-- Go `strings.ToLower` (char-wise; agrees with Go on ASCII). -/
def goToLower (s : String) : String :=
  ⟨s.data.map Char.toLower⟩

/-- Go `pkgPath[:firstSlash]` where `firstSlash = strings.Index(pkgPath, "/")`,
    or the whole string when there is no slash: the first path segment. -/
def goFirstSegment (s : String) : String :=
  ⟨s.data.takeWhile (fun c => c ≠ '/')⟩

/-- Go `strings.Fields`: split around runs of whitespace, dropping empties. -/
def goFields (s : String) : List String :=
  ((s.data.splitOnP (fun c => c.isWhitespace)).map (fun l => (⟨l⟩ : String))).filter
    (fun w => w ≠ "")

/-- Last component of `strings.Split(path, "/")`. -/
def goLastPathComponent (path : String) : String :=
  ⟨(path.data.splitOnP (fun c => c = '/')).getLastD []⟩

/-! ## Classification helpers of the query engine (`internal/server/graph.go`) -/

/-- `isStdlib` from graph.go: stdlib packages have no dot in the first
    path segment. -/
def isStdlib (pkgPath : String) : Bool :=
  if pkgPath = "" then false
  else !(goContainsChar (goFirstSegment pkgPath) '.')

/-- `isVendor` from graph.go. -/
def isVendor (pkgPath : String) : Bool :=
  goContains pkgPath "/vendor/" || goStartsWith pkgPath "vendor/"

/-- Modelled from the spec: `is_cmd_package` (the definition is referenced by
    spine.go but its source file is not in the corpus): true when the path
    contains a `/cmd/` segment or starts with `cmd/`. -/
def isCmdPackage (pkgPath : String) : Bool :=
  goContains pkgPath "/cmd/" || goStartsWith pkgPath "cmd/"

/-- `matchPackagePattern` from graph.go, translated branch for branch. -/
def matchPackagePattern (pattern pkgPath : String) : Bool :=
  if pattern = pkgPath then true
  else if goEndsWith pattern "*" then
    goStartsWith pkgPath (goDropRight pattern 1)
  else if goEndsWith pattern "/*" then
    goStartsWith pkgPath (goDropRight pattern 2 ++ "/") || pkgPath = goDropRight pattern 2
  else false

/-- The matching relation as the specification describes it (for claim C3):
    exact match, or `p` ends with `*` (prefix match), or `p` ends with `/*`
    (prefix at the slash, or exact equality with the part before `/*`). -/
def matchPackagePatternSpec (pattern pkgPath : String) : Bool :=
  pattern = pkgPath
    || (goEndsWith pattern "*" && goStartsWith pkgPath (goDropRight pattern 1))
    || (goEndsWith pattern "/*" &&
        (goStartsWith pkgPath (goDropRight pattern 2 ++ "/") || pkgPath = goDropRight pattern 2))

/-! ## Store data model (`internal/store`)

The struct declarations live in the store's models file (not in the corpus);
fields and variants are modelled from the spec (§3) and from the uses in
`store.go`, `graph.go`, `spine.go`. -/

/-- Modelled from the spec: `kind ∈ {func, method, type, var, const}` (§3). -/
inductive SymbolKind
  | func | method | typeDecl | varDecl | constDecl
deriving DecidableEq, Repr

/-- Modelled from the spec:
    `call_kind ∈ {static, interface, funcval, defer, go, unknown}` (§3). -/
inductive CallKind
  | static | interface | funcval | deferred | goroutine | unknown
deriving DecidableEq, Repr

/-- A row of the `symbols` table. -/
structure Symbol where
  id : Nat
  pkgPath : String
  name : String
  kind : SymbolKind
  recvType : String
  file : String
  line : Nat
  sig : String
deriving DecidableEq, Repr

/-- A row of the `call_edges` table. -/
structure CallEdgeRow where
  callerId : Nat
  calleeId : Nat
  callerFile : String
  callerLine : Nat
  callKind : CallKind
  count : Nat
deriving DecidableEq, Repr

/-- A row of the `tags` table. -/
structure TagRow where
  symbolId : Nat
  tag : String
  reason : String
deriving DecidableEq, Repr

/-- The read-only snapshot of the store a query runs against. -/
structure StoreState where
  symbols : List Symbol
  callEdges : List CallEdgeRow
  tags : List TagRow
deriving Repr

/-- `Store.GetSymbolByID`: the row of `symbols` with the given id
    (`none` models the `sql.ErrNoRows` error). -/
def findSymbol (st : StoreState) (id : Nat) : Option Symbol :=
  st.symbols.find? (fun s => s.id = id)

/-- `Store.GetSymbolTags`. -/
def getSymbolTags (st : StoreState) (id : Nat) : List TagRow :=
  st.tags.filter (fun t => t.symbolId = id)

/-- Stable insertion step for ordering call edges by `caller_line`
    (`ORDER BY ce.caller_line`; SQLite leaves the tie order unspecified,
    the model keeps input order on ties). -/
def insertByLine (r : CallEdgeRow) : List CallEdgeRow → List CallEdgeRow
  | [] => [r]
  | x :: rest =>
    if r.callerLine ≤ x.callerLine then r :: x :: rest else x :: insertByLine r rest

/-- Sort call-edge rows by `caller_line` (stable insertion sort). -/
def orderByCallerLine (l : List CallEdgeRow) : List CallEdgeRow :=
  l.foldr insertByLine []

/-- `store.CalleeInfo`. -/
structure CalleeInfo where
  symbol : Symbol
  callKind : CallKind
  callerFile : String
  callerLine : Nat
  count : Nat
  tags : List TagRow
deriving Repr

/-- `Store.GetCallees`: join `call_edges` rows with caller id onto `symbols`,
    ordered by caller line, one `CalleeInfo` per edge row, each loaded with
    the callee's tags. -/
def getCallees (st : StoreState) (callerId : Nat) : List CalleeInfo :=
  (orderByCallerLine (st.callEdges.filter (fun e => e.callerId = callerId))).filterMap
    (fun e => (findSymbol st e.calleeId).map (fun sym =>
      { symbol := sym, callKind := e.callKind, callerFile := e.callerFile,
        callerLine := e.callerLine, count := e.count,
        tags := getSymbolTags st e.calleeId }))

/-! ## Graph query engine (`internal/server/graph.go`) -/

/-- `server.GraphFilter`.  `StopAtIO` is modelled as `stopAtIo` and
    `StopAtPackagePrefix` as `stopAtPackagePrefixes` (Lean-side renames
    only); `collapseWiring` / `hideCmdMain` are the two fields the spec's
    filter model (§4.H) lists that `spine.go` reads.  `maxDepth` is a Go
    `int` whose only test anywhere is `> 0`, so negative values coincide
    with `0` and `Nat` is faithful. -/
structure GraphFilter where
  hideStdlib : Bool := false
  hideVendors : Bool := false
  stopAtIo : Bool := false
  stopAtPackagePrefixes : List String := []
  maxDepth : Nat := 0
  noisePackages : List String := []
  collapseWiring : Bool := false
  hideCmdMain : Bool := false
deriving DecidableEq, Repr

/-- `server.DefaultGraphFilter`. -/
def defaultGraphFilter : GraphFilter := { maxDepth := 6 }

/-- `server.GraphNode`. -/
structure GraphNode where
  id : Nat
  name : String
  pkgPath : String
  file : String
  line : Nat
  kind : SymbolKind
  recvType : String
  sig : String
  tags : List String
  expanded : Bool
  depth : Nat
deriving DecidableEq, Repr

/-- `server.GraphEdge`. -/
structure GraphEdge where
  sourceId : Nat
  targetId : Nat
  callKind : CallKind
  callsiteCount : Nat
  callerFile : String
  callerLine : Nat
deriving DecidableEq, Repr

/-- `server.GraphResponse`. -/
structure GraphResponse where
  nodes : List GraphNode
  edges : List GraphEdge
  rootId : Nat
  maxDepth : Nat
  filtered : Nat
deriving DecidableEq, Repr

/-- The mutable fields of `server.GraphBuilder`.  `nodes` is a Go map keyed
    by id; the model keeps insertion order (iteration order of a Go map is
    unspecified, and no settled statement depends on it). -/
structure GBState where
  nodes : List GraphNode := []
  edges : List GraphEdge := []
  visited : List Nat := []
  filtered : Nat := 0
deriving Repr

/-- `GraphBuilder.shouldFilter`. -/
def shouldFilter (f : GraphFilter) (sym : Symbol) : Bool :=
  (f.hideStdlib && isStdlib sym.pkgPath)
    || (f.hideVendors && isVendor sym.pkgPath)
    || f.noisePackages.any (fun noise => matchPackagePattern noise sym.pkgPath)

/-- `GraphBuilder.shouldStopExpansion`. -/
def shouldStopExpansion (f : GraphFilter) (sym : Symbol) (tags : List TagRow) : Bool :=
  (f.stopAtIo && tags.any (fun t => goStartsWith t.tag "io:"))
    || f.stopAtPackagePrefixes.any (fun p => goStartsWith sym.pkgPath p)

/-- Build the `GraphNode` stored for a symbol. -/
def nodeOfSymbol (st : StoreState) (sym : Symbol) (depth : Nat) (expanded : Bool) :
    GraphNode :=
  { id := sym.id, name := sym.name, pkgPath := sym.pkgPath, file := sym.file,
    line := sym.line, kind := sym.kind, recvType := sym.recvType, sig := sym.sig,
    tags := (getSymbolTags st sym.id).map (fun t => t.tag),
    expanded := expanded, depth := depth }

/-- `GraphBuilder.addNode`: `none` models the error return when the symbol
    id is absent; a filtered symbol only bumps the `filtered` counter. -/
def addNode (st : StoreState) (f : GraphFilter) (id depth : Nat) (expanded : Bool)
    (g : GBState) : Option GBState :=
  if g.nodes.any (fun n => n.id = id) then some g
  else
    match findSymbol st id with
    | none => none
    | some sym =>
      if shouldFilter f sym then some { g with filtered := g.filtered + 1 }
      else some { g with nodes := g.nodes ++ [nodeOfSymbol st sym depth expanded] }

/-- One step of the per-callee aggregation loop in `GraphBuilder.expand`:
    filtered callees bump the counter, duplicate `(source, target)` pairs sum
    `callsiteCount`, a fresh pair appends an edge retaining the first
    encountered kind/file/line. -/
def aggStep (f : GraphFilter) (s : Nat) (acc : List GraphEdge × Nat)
    (c : CalleeInfo) : List GraphEdge × Nat :=
  if shouldFilter f c.symbol then (acc.1, acc.2 + 1)
  else if acc.1.any (fun e => e.targetId = c.symbol.id) then
    (acc.1.map (fun e =>
      if e.targetId = c.symbol.id then
        { e with callsiteCount := e.callsiteCount + c.count }
      else e), acc.2)
  else
    (acc.1 ++ [{ sourceId := s, targetId := c.symbol.id, callKind := c.callKind,
                 callsiteCount := c.count, callerFile := c.callerFile,
                 callerLine := c.callerLine }], acc.2)

/-- The `calleeEdges` aggregation of `GraphBuilder.expand`, in
    first-encounter order. -/
def aggregateCallees (f : GraphFilter) (s : Nat) (callees : List CalleeInfo) :
    List GraphEdge × Nat :=
  callees.foldl (aggStep f s) ([], 0)

/-- The tail of `GraphBuilder.expand`: mark the source node expanded. -/
def markExpanded (s : Nat) (g : GBState) : GBState :=
  { g with nodes := g.nodes.map (fun n =>
      if n.id = s then { n with expanded := true } else n) }

/-- The edge/node insertion loop of `GraphBuilder.expand`: append the edge,
    add the target node (skipping recursion when the symbol lookup fails),
    then recurse into the target via `recur`. -/
def expandEdges (st : StoreState) (f : GraphFilter) (recur : Nat → GBState → GBState)
    (nextDepth : Nat) : List GraphEdge → GBState → GBState
  | [], g => g
  | e :: rest, g =>
    expandEdges st f recur nextDepth rest
      (match addNode st f e.targetId nextDepth false { g with edges := g.edges ++ [e] } with
       | none => { g with edges := g.edges ++ [e] }
       | some g' => recur e.targetId g')

/-- `GraphBuilder.expand` with the Go depth guard kept verbatim; `fuel` is
    structural and chosen `> maxD - currentDepth` at every top-level call, so
    the `0` case is unreachable and the function equals the Go recursion. -/
def expandGo (st : StoreState) (f : GraphFilter) :
    Nat → Nat → Nat → Nat → GBState → GBState
  | 0, _, _, _, g => g
  | fuel' + 1, symbolId, maxD, currentDepth, g =>
    if maxD ≤ currentDepth then g
    else if symbolId ∈ g.visited then g
    else
      match findSymbol st symbolId with
      | none => { g with visited := symbolId :: g.visited }
      | some sym =>
        if shouldStopExpansion f sym (getSymbolTags st symbolId) then
          { g with visited := symbolId :: g.visited }
        else
          markExpanded symbolId
            (expandEdges st f
              (fun t g' => expandGo st f fuel' t maxD (currentDepth + 1) g')
              (currentDepth + 1)
              (aggregateCallees f symbolId (getCallees st symbolId)).1
              { g with visited := symbolId :: g.visited,
                       filtered :=
                         g.filtered +
                           (aggregateCallees f symbolId (getCallees st symbolId)).2 })

/-- `GraphBuilder.buildResponse` (node map iterated in insertion order). -/
def buildResponse (rootId maxD : Nat) (g : GBState) : GraphResponse :=
  { nodes := g.nodes, edges := g.edges, rootId := rootId,
    maxDepth := maxD, filtered := g.filtered }

/-- The clamp at the top of `GraphBuilder.BuildFromRoot`:
    `if gb.filter.MaxDepth > 0 && depth > gb.filter.MaxDepth
       { depth = gb.filter.MaxDepth }`. -/
def effectiveDepth (f : GraphFilter) (depth : Nat) : Nat :=
  if 0 < f.maxDepth ∧ f.maxDepth < depth then f.maxDepth else depth

/-- `GraphBuilder.BuildFromRoot`: clamp the requested depth only when
    `filter.MaxDepth > 0`, add the root node, expand, build the response. -/
def buildFromRoot (st : StoreState) (f : GraphFilter) (rootId depth : Nat) :
    Option GraphResponse :=
  match addNode st f rootId 0 true {} with
  | none => none
  | some g =>
    some (buildResponse rootId (effectiveDepth f depth)
      (expandGo st f (effectiveDepth f depth + 1) rootId (effectiveDepth f depth) 0 g))

/-- The seeding step at the top of `GraphBuilder.Expand`: add the node only
    when it is not already present. -/
def seedNode (st : StoreState) (f : GraphFilter) (symbolId : Nat) (g : GBState) :
    Option GBState :=
  if g.nodes.any (fun n => n.id = symbolId) then some g
  else addNode st f symbolId 0 true g

/-- `GraphBuilder.Expand` on a fresh builder (as the HTTP handler uses it):
    seed the node if absent, then expand by the requested depth (no clamp). -/
def expandQuery (st : StoreState) (f : GraphFilter) (symbolId depth : Nat) :
    Option GraphResponse :=
  match seedNode st f symbolId {} with
  | none => none
  | some g =>
    some (buildResponse symbolId depth (expandGo st f (depth + 1) symbolId depth 0 g))

/-! ## Call spine builder (`internal/server/spine.go`) -/

/-- `isLoggingPackage` from spine.go. -/
def isLoggingPackage (pkgPath : String) : Bool :=
  ["log", "slog", "zap", "logrus", "zerolog", "telemetry", "metrics",
   "tracing", "opentelemetry", "prometheus"].any
    (fun pat => goContains (goToLower pkgPath) pat)

/-- `isErrorConstruction` from spine.go. -/
def isErrorConstruction (name pkgPath : String) : Bool :=
  if pkgPath = "errors" && (name = "New" || name = "Wrap" || name = "Wrapf") then
    true
  else if pkgPath = "fmt" && (name = "Errorf" || name = "Sprintf") then true
  else
    goEndsWith (goToLower name) "error" || goStartsWith (goToLower name) "error"

/-- Modelled from the spec: `isWiringFunction` (referenced by spine.go, its
    source file is not in the corpus): the name looks like a
    constructor/provider, e.g. `New*` (§4.H scoring heuristics). -/
def isWiringFunction (name : String) : Bool :=
  goStartsWith name "New"

/-- Go `strings.TrimPrefix`. -/
def goTrimLeading (s pre : String) : String :=
  if goStartsWith s pre then ⟨s.data.drop pre.data.length⟩ else s

/-- `extractLayer` from spine.go: the first `layer:` tag, trimmed. -/
def extractLayer (tags : List String) : String :=
  match tags.find? (fun tg => goStartsWith tg "layer:") with
  | some tg => goTrimLeading tg "layer:"
  | none => ""

/-- `server.BranchBadge`. -/
structure BranchBadge where
  callCount : Nat
  collapsedIds : List Nat
  labels : List String
deriving DecidableEq, Repr

/-- `server.SpineNode`. -/
structure SpineNode where
  id : Nat
  name : String
  pkgPath : String
  recvType : String
  file : String
  line : Nat
  tags : List String
  depth : Nat
  isMainPath : Bool
  branchBadge : Option BranchBadge
  layer : String
deriving DecidableEq, Repr

/-- `server.SpineResponse`. -/
structure SpineResponse where
  nodes : List SpineNode
  mainPath : List Nat
  totalNodes : Nat
  collapsedCount : Nat
deriving DecidableEq, Repr

/-- `SpineBuilder.shouldFilterCallee`. -/
def spineShouldFilterCallee (f : GraphFilter) (sym : Symbol) : Bool :=
  (f.hideStdlib && isStdlib sym.pkgPath)
    || (f.hideVendors && isVendor sym.pkgPath)
    || (f.hideCmdMain && isCmdPackage sym.pkgPath)
    || f.noisePackages.any (fun noise => matchPackagePattern noise sym.pkgPath)

/-- The two accumulators of `loadCalleesRecursive`: the `allCallees` map (in
    insertion order) and the `visited` set. -/
structure LoadState where
  allCallees : List (Nat × List CalleeInfo) := []
  visited : List Nat := []

/-- Go map read `allCallees[symID]` (empty slice when absent). -/
def lookupCallees (m : List (Nat × List CalleeInfo)) (k : Nat) : List CalleeInfo :=
  match m.find? (fun p => p.1 = k) with
  | some p => p.2
  | none => []

/-- The recursion loop of `loadCalleesRecursive` over the filtered callees. -/
def loadList (recur : Nat → LoadState → LoadState) :
    List CalleeInfo → LoadState → LoadState
  | [], s => s
  | c :: rest, s => loadList recur rest (recur c.symbol.id s)

/-- `SpineBuilder.loadCalleesRecursive` (fuel chosen `> maxD - currentDepth`
    at the top-level call, the Go depth guard kept verbatim). -/
def loadCalleesRec (st : StoreState) (f : GraphFilter) :
    Nat → Nat → Nat → Nat → LoadState → LoadState
  | 0, _, _, _, s => s
  | fuel + 1, symbolId, maxD, currentDepth, s =>
    if maxD ≤ currentDepth then s
    else if symbolId ∈ s.visited then s
    else
      loadList (fun t s' => loadCalleesRec st f fuel t maxD (currentDepth + 1) s')
        ((getCallees st symbolId).filter
          (fun c => !spineShouldFilterCallee f c.symbol))
        { allCallees := s.allCallees ++
            [(symbolId, (getCallees st symbolId).filter
                (fun c => !spineShouldFilterCallee f c.symbol))],
          visited := symbolId :: s.visited }

/-- `server.ScoredCallee`. -/
structure ScoredCallee where
  id : Nat
  symbol : Symbol
  callKind : CallKind
  score : Int
  tags : List String
deriving DecidableEq, Repr

/-- The score of one callee (`SpineBuilder.scoreCallees`, heuristics 1–7). -/
def scoreOf (f : GraphFilter) (rootPkg : String) (c : CalleeInfo) : Int :=
  (if c.symbol.pkgPath = rootPkg then 10
   else if goStartsWith c.symbol.pkgPath (goFirstSegment rootPkg) then 5 else 0)
  + (c.tags.map (fun t => t.tag)).foldl (fun acc tg =>
      acc + (if tg = "layer:service" then 8
             else if tg = "layer:domain" then 7
             else if tg = "layer:store" then 6
             else if tg = "layer:handler" then 5 else 0)) 0
  + (if isLoggingPackage c.symbol.pkgPath then -15 else 0)
  + (if f.collapseWiring && isWiringFunction c.symbol.name then -10 else 0)
  + (if isErrorConstruction c.symbol.name c.symbol.pkgPath then -20 else 0)
  + (if c.symbol.recvType ≠ "" then 3 else 0)
  + (if c.callKind = CallKind.interface then 2 else 0)

/-- `SpineBuilder.scoreCallees`: skip visited callees, score the rest. -/
def scoreCallees (f : GraphFilter) (rootPkg : String) (visited : List Nat)
    (callees : List CalleeInfo) : List ScoredCallee :=
  callees.filterMap (fun c =>
    if c.symbol.id ∈ visited then none
    else some { id := c.symbol.id, symbol := c.symbol, callKind := c.callKind,
                score := scoreOf f rootPkg c,
                tags := c.tags.map (fun t => t.tag) })

/-- Insertion step of the score-descending sort. -/
def insertScored (x : ScoredCallee) : List ScoredCallee → List ScoredCallee
  | [] => [x]
  | y :: rest => if y.score < x.score then x :: y :: rest else y :: insertScored x rest

/-- `sort.Slice(scored, …Score > …Score)` (Go's sort is unstable; the model
    fixes a deterministic order — no settled statement depends on it). -/
def sortByScoreDesc (l : List ScoredCallee) : List ScoredCallee :=
  l.foldr insertScored []

/-- The "pick the best unvisited callee" loop of `determineMainPath`. -/
def firstUnvisited (visited : List Nat) : List ScoredCallee → Option ScoredCallee
  | [] => none
  | x :: rest => if x.id ∈ visited then firstUnvisited visited rest else some x

/-- The greedy selection loop of `SpineBuilder.determineMainPath`; `fuel` is
    chosen `≥ maxD` at the top-level call (the path grows by one per
    iteration and the loop guard `len(path) < maxDepth` is kept verbatim). -/
def dmpLoop (st : StoreState) (f : GraphFilter) (allC : List (Nat × List CalleeInfo))
    (rootPkg : String) (maxD : Nat) :
    Nat → Nat → List Nat → List Nat → List Nat
  | 0, _, _, path => path
  | fuel + 1, current, visited, path =>
    if maxD ≤ path.length then path
    else if (lookupCallees allC current).isEmpty then path
    else
      if (scoreCallees f rootPkg visited (lookupCallees allC current)).isEmpty then
        path
      else
        match firstUnvisited visited
            (sortByScoreDesc (scoreCallees f rootPkg visited (lookupCallees allC current))) with
        | none => path
        | some best =>
          dmpLoop st f allC rootPkg maxD fuel best.id (best.id :: visited)
            (path ++ [best.id])

/-- `SpineBuilder.determineMainPath`. -/
def determineMainPath (st : StoreState) (f : GraphFilter)
    (allC : List (Nat × List CalleeInfo)) (rootId maxD : Nat) : List Nat :=
  match findSymbol st rootId with
  | none => [rootId]
  | some rootSym => dmpLoop st f allC rootSym.pkgPath maxD maxD rootId [rootId] [rootId]

/-- The label of a collapsed callee (`(recv).name` for methods). -/
def spineLabel (sym : Symbol) : String :=
  if sym.recvType = "" then sym.name
  else "(" ++ sym.recvType ++ ")." ++ sym.name

/-- The node/badge construction loop of `BuildSpine` over the main path
    (index `i` is the position in the main path; a failed symbol lookup
    skips the node).  Returns `(nodes, totalNodes, collapsedCount)`. -/
def buildSpineNodes (st : StoreState) (f : GraphFilter)
    (allC : List (Nat × List CalleeInfo)) (mainPathSet : List Nat) :
    List Nat → Nat → List SpineNode × Nat × Nat
  | [], _ => ([], 0, 0)
  | id :: rest, i =>
    match findSymbol st id with
    | none => buildSpineNodes st f allC mainPathSet rest (i + 1)
    | some sym =>
      ({ id := id, name := sym.name, pkgPath := sym.pkgPath,
         recvType := sym.recvType, file := sym.file, line := sym.line,
         tags := (getSymbolTags st id).map (fun t => t.tag),
         depth := i, isMainPath := true,
         branchBadge :=
           (if ((lookupCallees allC id).filter (fun c =>
                 !(c.symbol.id ∈ mainPathSet) && !spineShouldFilterCallee f c.symbol)).isEmpty
            then none
            else some
              { callCount := ((lookupCallees allC id).filter (fun c =>
                  !(c.symbol.id ∈ mainPathSet) && !spineShouldFilterCallee f c.symbol)).length,
                collapsedIds := ((lookupCallees allC id).filter (fun c =>
                  !(c.symbol.id ∈ mainPathSet) && !spineShouldFilterCallee f c.symbol)).map
                    (fun c => c.symbol.id),
                labels := ((lookupCallees allC id).filter (fun c =>
                  !(c.symbol.id ∈ mainPathSet) && !spineShouldFilterCallee f c.symbol)).map
                    (fun c => spineLabel c.symbol) }),
         layer := extractLayer ((getSymbolTags st id).map (fun t => t.tag)) }
          :: (buildSpineNodes st f allC mainPathSet rest (i + 1)).1,
       (lookupCallees allC id).length
         + (buildSpineNodes st f allC mainPathSet rest (i + 1)).2.1,
       ((lookupCallees allC id).filter (fun c =>
           !(c.symbol.id ∈ mainPathSet) && !spineShouldFilterCallee f c.symbol)).length
         + (buildSpineNodes st f allC mainPathSet rest (i + 1)).2.2)

/-- The `maxDepth <= 0 → 10` default at the top of `BuildSpine` (negative
    Go ints coincide with `0` under the `Nat` modelling). -/
def spineMaxDepth (maxDepth : Nat) : Nat := if maxDepth = 0 then 10 else maxDepth

/-- The `allCallees` map loaded by `BuildSpine`. -/
def spineAllCallees (st : StoreState) (f : GraphFilter) (rootId maxD : Nat) :
    List (Nat × List CalleeInfo) :=
  (loadCalleesRec st f (maxD + 1) rootId maxD 0 {}).allCallees

/-- The main path computed by `BuildSpine`. -/
def spineMainPath (st : StoreState) (f : GraphFilter) (rootId maxDepth : Nat) :
    List Nat :=
  determineMainPath st f
    (spineAllCallees st f rootId (spineMaxDepth maxDepth)) rootId
    (spineMaxDepth maxDepth)

/-- `SpineBuilder.BuildSpine`. -/
def buildSpine (st : StoreState) (f : GraphFilter) (rootId maxDepth : Nat) :
    SpineResponse :=
  { nodes := (buildSpineNodes st f
      (spineAllCallees st f rootId (spineMaxDepth maxDepth))
      (spineMainPath st f rootId maxDepth)
      (spineMainPath st f rootId maxDepth) 0).1,
    mainPath := spineMainPath st f rootId maxDepth,
    totalNodes := (buildSpineNodes st f
      (spineAllCallees st f rootId (spineMaxDepth maxDepth))
      (spineMainPath st f rootId maxDepth)
      (spineMainPath st f rootId maxDepth) 0).2.1
        + (spineMainPath st f rootId maxDepth).length,
    collapsedCount := (buildSpineNodes st f
      (spineAllCallees st f rootId (spineMaxDepth maxDepth))
      (spineMainPath st f rootId maxDepth)
      (spineMainPath st f rootId maxDepth) 0).2.2 }

/-! ## Tagger purity pass (`internal/index/tagger.go`) -/

/-- `store.SymbolForTagging` (the columns of `GetAllSymbolsForTagging`). -/
structure SymbolForTagging where
  id : Nat
  pkgPath : String
  name : String
  kind : SymbolKind
  recvType : String
deriving DecidableEq, Repr

/-- The projection `SELECT id, pkg_path, name, kind, recv_type`. -/
def symbolForTagging (s : Symbol) : SymbolForTagging :=
  { id := s.id, pkgPath := s.pkgPath, name := s.name, kind := s.kind,
    recvType := s.recvType }

/-- `Store.GetAllSymbolsForTagging`. -/
def getAllSymbolsForTagging (st : StoreState) : List SymbolForTagging :=
  st.symbols.map symbolForTagging

/-- `store.SymbolCallee`: one caller→callee pair with the callee's tags. -/
structure SymbolCallee where
  callerId : Nat
  calleeId : Nat
  tags : List String
deriving DecidableEq, Repr

/-- The `(caller_id, callee_id)` pair of an edge row. -/
def pairOf (e : CallEdgeRow) : Nat × Nat := (e.callerId, e.calleeId)

/-- The distinct `(caller_id, callee_id)` pairs of the edge table (the
    `GROUP BY ce.caller_id, ce.callee_id` of `GetSymbolCalleesWithTags`). -/
def distinctPairs (edges : List CallEdgeRow) : List (Nat × Nat) :=
  (edges.map pairOf).dedup

/-- The entry of `Store.GetSymbolCalleesWithTags` for one caller: one
    `SymbolCallee` per distinct callee, carrying the callee's tag strings.
    (The SQL transports the tag list through `GROUP_CONCAT` and `splitTags`;
    since tags follow the comma-free namespaced grammar of §3, that
    round-trips to the callee's tag list, which is what is modelled.) -/
def calleesWithTags (st : StoreState) (callerId : Nat) : List SymbolCallee :=
  (distinctPairs st.callEdges).filterMap (fun p =>
    if p.1 = callerId then
      some { callerId := p.1, calleeId := p.2,
             tags := (getSymbolTags st p.2).map (fun t => t.tag) }
    else none)

/-- `Tagger.getPurityTag`: no callees ⇒ `pure-ish` ("No outgoing function
    calls"); some callee with an `io:` tag ⇒ no tag; otherwise `pure-ish`
    ("No calls to I/O functions").  The Go map lookup's missing-entry case
    and the empty-list case take the same branch and are merged. -/
def getPurityTag (st : StoreState) (sym : SymbolForTagging) : Option TagRow :=
  if (calleesWithTags st sym.id).isEmpty then
    some { symbolId := sym.id, tag := "pure-ish",
           reason := "No outgoing function calls" }
  else if (calleesWithTags st sym.id).any
      (fun c => c.tags.any (fun tg => goStartsWith tg "io:")) then
    none
  else
    some { symbolId := sym.id, tag := "pure-ish",
           reason := "No calls to I/O functions" }

/-- Pass 2 of `Tagger.Tag`: the purity tags inserted, one per function or
    method symbol whose `getPurityTag` is non-nil. -/
def purityPass (st : StoreState) : List TagRow :=
  (getAllSymbolsForTagging st).filterMap (fun sym =>
    if sym.kind = SymbolKind.func ∨ sym.kind = SymbolKind.method then
      getPurityTag st sym
    else none)

/-! ## Store write operations (`internal/store/store.go`) -/

/-- The conflict key of `call_edges`:
    `(caller_id, callee_id, caller_file, caller_line)`. -/
def sameEdgeKey (a b : CallEdgeRow) : Bool :=
  a.callerId = b.callerId && a.calleeId = b.calleeId
    && a.callerFile = b.callerFile && a.callerLine = b.callerLine

/-- `Store.InsertCallEdge` / `BatchTx.InsertCallEdge`:
    `INSERT ... ON CONFLICT(caller_id, callee_id, caller_file, caller_line)
     DO UPDATE SET count = call_edges.count + excluded.count`. -/
def insertCallEdge (rows : List CallEdgeRow) (e : CallEdgeRow) : List CallEdgeRow :=
  if rows.any (fun r => sameEdgeKey r e) then
    rows.map (fun r =>
      if sameEdgeKey r e then { r with count := r.count + e.count } else r)
  else rows ++ [e]

/-- The `symbols` table together with the connection state that
    `LastInsertId` reads: SQLite's `last_insert_rowid()` is set by every
    successful `INSERT` and left unchanged by the `DO UPDATE` arm of an
    upsert. -/
structure SymTable where
  rows : List Symbol
  nextId : Nat
  lastRowid : Nat
deriving DecidableEq, Repr

/-- The conflict key of `symbols`: `(pkg_path, name, recv_type)`. -/
def symKey (r : Symbol) (pkgPath name recvType : String) : Bool :=
  r.pkgPath = pkgPath && r.name = name && r.recvType = recvType

/-- `Store.InsertSymbol` / `BatchTx.InsertSymbol`:
    `INSERT ... ON CONFLICT(pkg_path, name, recv_type) DO UPDATE SET
     kind/file/line/sig`, then report `result.LastInsertId()`.  The driver's
    `LastInsertId` never errors (it returns the connection's
    `last_insert_rowid`), so `Store.InsertSymbol`'s fallback lookup is dead
    and both variants behave identically: on conflict the reported id is the
    stale `last_insert_rowid`, not the id of the updated row.  The input's
    `id` field is ignored, as the SQL inserts no id column. -/
def insertSymbol (t : SymTable) (sym : Symbol) : Nat × SymTable :=
  if t.rows.any (fun r => symKey r sym.pkgPath sym.name sym.recvType) then
    (t.lastRowid,
     { t with rows := t.rows.map (fun r =>
         if symKey r sym.pkgPath sym.name sym.recvType then
           { r with kind := sym.kind, file := sym.file, line := sym.line,
                    sig := sym.sig }
         else r) })
  else
    (t.nextId,
     { rows := t.rows ++ [{ sym with id := t.nextId }],
       nextId := t.nextId + 1, lastRowid := t.nextId })

/-! ## Entry-point handler resolution (`internal/index/entrypoints.go`) -/

/-- `Store.GetSymbolID` / `BatchTx.GetSymbolID`: look the id up by the
    unique `(pkg_path, name, recv_type)` triple (`none` models
    `sql.ErrNoRows`). -/
def getSymbolID (st : StoreState) (pkgPath name recvType : String) :
    Option Nat :=
  (st.symbols.find? (fun r =>
    r.pkgPath = pkgPath && r.name = name && r.recvType = recvType)).map
    (fun r => r.id)

/-- One import of a Go file: the optional alias and the import path. -/
structure ImportSpec where
  name : Option String
  path : String
deriving DecidableEq, Repr

/-- The part of `*ast.File` that `getImportPath` reads. -/
structure FileAst where
  imports : List ImportSpec
deriving DecidableEq, Repr

/-- `getImportPath`: resolve a package alias against the file's imports; a
    `nil` file yields `""`.  An import without explicit alias is addressed
    by the last component of its path. -/
def getImportPath (file : Option FileAst) (aliasName : String) : String :=
  match file with
  | none => ""
  | some fl =>
    match fl.imports.find? (fun imp =>
      (match imp.name with
       | some n => n
       | none => goLastPathComponent imp.path) = aliasName) with
    | some imp => imp.path
    | none => ""

/-- The handler expression shapes `resolveHandlerSymbol` distinguishes. -/
inductive HandlerExpr
  | ident (name : String)
  | selector (x : String) (sel : String)
  | funcLit
  | otherExpr
deriving DecidableEq, Repr

/-- `resolveHandlerSymbol`.  NOTE: the imported-package fallback calls
    `d.getImportPath(nil, ident.Name)` in the source — the `nil` file is
    kept verbatim here (`getImportPath none x`). -/
def resolveHandlerSymbol (st : StoreState) (pkgPath : String) (e : HandlerExpr) :
    Nat :=
  match e with
  | .ident n =>
    match getSymbolID st pkgPath n "" with
    | some id => id
    | none => 0
  | .selector x sel =>
    match getSymbolID st pkgPath sel x with
    | some id => id
    | none =>
      match getSymbolID st pkgPath sel ("*" ++ x) with
      | some id => id
      | none =>
        if getImportPath none x ≠ "" then
          match getSymbolID st (getImportPath none x) sel "" with
          | some id => id
          | none => 0
        else 0
  | .funcLit => 0
  | .otherExpr => 0

/-! ## Cobra CLI detection (`detectCobra` in entrypoints.go) -/

/-- The fields `detectCobra` collects from a `&cobra.Command{…}` literal. -/
structure CommandInfo where
  use : String
  runHandler : Option HandlerExpr
  runEHandler : Option HandlerExpr
deriving DecidableEq, Repr

/-- The data of one CLI entry point (label and `CLIMeta`). -/
structure CLIEntry where
  command : String
  usesRunE : Bool
  symbolId : Nat
deriving DecidableEq, Repr

/-- The guard under which `detectCobra` collects a command literal:
    `cmd.use != "" && (cmd.runHandler != nil || cmd.runEHandler != nil)`. -/
def cobraCollects (cmd : CommandInfo) : Bool :=
  cmd.use ≠ "" && (cmd.runHandler.isSome || cmd.runEHandler.isSome)

/-- The per-command body of `detectCobra`'s insertion loop.  `.error` models
    the Go runtime panic: `strings.Fields(cmd.use)[0]` is evaluated whenever
    the handler resolves, and it panics when `Fields` returns an empty
    slice (whitespace-only `Use`). -/
def processCobraCommand (st : StoreState) (pkgPath : String) (cmd : CommandInfo) :
    Except String (Option CLIEntry) :=
  match (match cmd.runEHandler with
         | some h => (some h, true)
         | none => (cmd.runHandler, false)) with
  | (none, _) => .ok none
  | (some h, usesRunE) =>
    if resolveHandlerSymbol st pkgPath h ≠ 0 then
      match goFields cmd.use with
      | [] => .error "runtime error: index out of range [0] with length 0"
      | w :: _ =>
        .ok (some { command := w, usesRunE := usesRunE,
                    symbolId := resolveHandlerSymbol st pkgPath h })
    else .ok none

/-! ## Call-graph extractor (`internal/index/callgraph.go`) -/

/-- The identity of an `*ssa.Function` as the extractor reads it:
    package path, name and formatted receiver type. -/
structure FnRef where
  pkgPath : String
  name : String
  recvType : String
deriving DecidableEq, Repr

/-- The builder's symbol cache, keyed by the `(pkg, name, recv)` triple. -/
abbrev SymCache := List ((String × String × String) × Nat)

/-- `CallGraphBuilder.lookupSymbolID`: project filter, cache, then the
    store lookup (`none`/absent symbol yields the `0` sentinel); a store hit
    is added to the cache. -/
def lookupSymbolID (projectPkgs : List String) (st : StoreState)
    (cache : SymCache) (fn : Option FnRef) : Nat × SymCache :=
  match fn with
  | none => (0, cache)
  | some fn =>
    if fn.pkgPath ∉ projectPkgs then (0, cache)
    else
      match cache.find? (fun p => p.1 = (fn.pkgPath, fn.name, fn.recvType)) with
      | some p => (p.2, cache)
      | none =>
        match getSymbolID st fn.pkgPath fn.name fn.recvType with
        | none => (0, cache)
        | some id => (id, cache ++ [((fn.pkgPath, fn.name, fn.recvType), id)])

/-- A resolved source position (`pos.IsValid()`; `none` = invalid). -/
structure SrcPos where
  filename : String
  line : Nat
deriving DecidableEq, Repr

/-- The function value of a funcval call (`common.Value`). -/
inductive ValueM
  | makeClosure (fn : Option FnRef)
  | fnValue (fn : Option FnRef)
  | otherValue
deriving DecidableEq, Repr

/-- The fields of `*ssa.CallCommon` the extractor reads. -/
structure CallCommonM where
  staticCallee : Option FnRef
  isInvoke : Bool
  methodName : Option String
  ifaceName : String
  value : ValueM
deriving DecidableEq, Repr

/-- The instruction variants `extractCallEdge` discriminates. -/
inductive InstrM
  | call (pos : Option SrcPos) (common : CallCommonM)
  | goInstr (pos : Option SrcPos) (common : CallCommonM)
  | deferInstr (pos : Option SrcPos) (common : CallCommonM)
  | otherInstr
deriving DecidableEq, Repr

/-- `CallGraphBuilder.resolveInterfaceMethod`, with the candidate search
    (`findMethodImplementations`, an SSA-wide type/method-set scan)
    abstracted as a parameter: a single candidate is taken, with several
    candidates the first is taken, with none the call is unresolved. -/
def resolveInterfaceMethod (findImpls : String → String → List Nat)
    (c : CallCommonM) : Nat :=
  match c.methodName with
  | none => 0
  | some m =>
    match findImpls m c.ifaceName with
    | [] => 0
    | [x] => x
    | x :: _ :: _ => x

/-- `CallGraphBuilder.traceFuncValue`: direct function references and
    closure constructions resolve through the symbol lookup; anything else
    is unresolved. -/
def traceFuncValue (projectPkgs : List String) (st : StoreState)
    (cache : SymCache) (v : ValueM) : Nat :=
  match v with
  | .makeClosure fn => (lookupSymbolID projectPkgs st cache fn).1
  | .fnValue fn => (lookupSymbolID projectPkgs st cache fn).1
  | .otherValue => 0

/-- The common part of `extractCallEdge` after the instruction kind switch:
    position check, then static callee / interface invoke / function value.
    (The cache mutation is not threaded — it affects only lookup speed.) -/
def extractFromCommon (findImpls : String → String → List Nat)
    (projectPkgs : List String) (st : StoreState) (cache : SymCache)
    (callerId : Nat) (pos : Option SrcPos) (common : CallCommonM)
    (baseKind : CallKind) : Option (CallEdgeRow × CallKind) :=
  match pos with
  | none => none
  | some p =>
    match common.staticCallee with
    | some callee =>
      if (lookupSymbolID projectPkgs st cache (some callee)).1 = 0 then none
      else some
        ({ callerId := callerId,
           calleeId := (lookupSymbolID projectPkgs st cache (some callee)).1,
           callerFile := p.filename, callerLine := p.line,
           callKind := baseKind, count := 1 }, baseKind)
    | none =>
      if common.isInvoke then
        if resolveInterfaceMethod findImpls common = 0 then none
        else some
          ({ callerId := callerId,
             calleeId := resolveInterfaceMethod findImpls common,
             callerFile := p.filename, callerLine := p.line,
             callKind := CallKind.interface, count := 1 }, CallKind.interface)
      else
        if traceFuncValue projectPkgs st cache common.value = 0 then none
        else some
          ({ callerId := callerId,
             calleeId := traceFuncValue projectPkgs st cache common.value,
             callerFile := p.filename, callerLine := p.line,
             callKind := CallKind.funcval, count := 1 }, CallKind.funcval)

/-- `CallGraphBuilder.extractCallEdge` (the extractor the indexing pipeline
    runs via `BuildAndExtract` → `ExtractCallEdgesWithStore`). -/
def extractCallEdge (findImpls : String → String → List Nat)
    (projectPkgs : List String) (st : StoreState) (cache : SymCache)
    (callerId : Nat) (instr : InstrM) : Option (CallEdgeRow × CallKind) :=
  match instr with
  | .call pos common =>
    extractFromCommon findImpls projectPkgs st cache callerId pos common
      CallKind.static
  | .goInstr pos common =>
    extractFromCommon findImpls projectPkgs st cache callerId pos common
      CallKind.goroutine
  | .deferInstr pos common =>
    extractFromCommon findImpls projectPkgs st cache callerId pos common
      CallKind.deferred
  | .otherInstr => none

/-- `CallGraphBuilder.resolveSymbolID` (used by the older
    `ExtractCallEdges`): cache-only lookup, a miss is an error (`0`). -/
def resolveSymbolID (projectPkgs : List String) (cache : SymCache)
    (fn : Option FnRef) : Nat :=
  match fn with
  | none => 0
  | some fn =>
    if fn.pkgPath ∉ projectPkgs then 0
    else
      match cache.find? (fun p => p.1 = (fn.pkgPath, fn.name, fn.recvType)) with
      | some p => p.2
      | none => 0

/-- The per-call-site body of `extractCallFromInstruction` after the
    instruction kind switch: its `resolveInterfaceCall` and
    `resolveFuncvalCall` both always return `(0, nil)`, so interface and
    funcval call sites are always skipped; in the funcval case `callKind`
    is set to `unknown` and then the site is skipped (`return nil`). -/
def extractFromInstrCommon (projectPkgs : List String) (cache : SymCache)
    (callerId : Nat) (pos : Option SrcPos) (common : CallCommonM)
    (baseKind : CallKind) : Option CallEdgeRow :=
  match pos with
  | none => none
  | some p =>
    match common.staticCallee with
    | some callee =>
      if resolveSymbolID projectPkgs cache (some callee) = 0 then none
      else some
        { callerId := callerId,
          calleeId := resolveSymbolID projectPkgs cache (some callee),
          callerFile := p.filename, callerLine := p.line,
          callKind := baseKind, count := 1 }
    | none => none

/-- `CallGraphBuilder.extractCallFromInstruction` (the older extractor). -/
def extractCallFromInstruction (projectPkgs : List String) (cache : SymCache)
    (callerId : Nat) (instr : InstrM) : Option CallEdgeRow :=
  match instr with
  | .otherInstr => none
  | .call pos common =>
    extractFromInstrCommon projectPkgs cache callerId pos common CallKind.static
  | .goInstr pos common =>
    extractFromInstrCommon projectPkgs cache callerId pos common CallKind.goroutine
  | .deferInstr pos common =>
    extractFromInstrCommon projectPkgs cache callerId pos common CallKind.deferred

/-! ## Concrete stores used by counterexamples and witnesses -/

/-- Concrete symbol used by the store-upsert statements. -/
def symA : Symbol :=
  { id := 0, pkgPath := "example.com/app", name := "F", kind := .func,
    recvType := "", file := "a.go", line := 1, sig := "" }

/-- A second symbol with a different `(pkg_path, name, recv_type)` key. -/
def symB : Symbol :=
  { id := 0, pkgPath := "example.com/app", name := "G", kind := .func,
    recvType := "", file := "a.go", line := 9, sig := "" }

/-- The empty symbol table of a fresh connection. -/
def symTable0 : SymTable := { rows := [], nextId := 1, lastRowid := 0 }

/-- A two-symbol store with one call edge, used as concrete input. -/
def storeA : StoreState :=
  { symbols := [
      { id := 1, pkgPath := "example.com/app", name := "F", kind := .func,
        recvType := "", file := "a.go", line := 1, sig := "" },
      { id := 2, pkgPath := "example.com/app", name := "G", kind := .func,
        recvType := "", file := "a.go", line := 2, sig := "" }],
    callEdges := [
      { callerId := 1, calleeId := 2, callerFile := "a.go", callerLine := 5,
        callKind := .static, count := 1 }],
    tags := [] }

/-- A store whose root symbol lives in a stdlib package while its callee is
    project-internal; used to exercise node-side filtering of the root. -/
def storeB : StoreState :=
  { symbols := [
      { id := 1, pkgPath := "fmt", name := "Println", kind := .func,
        recvType := "", file := "print.go", line := 1, sig := "" },
      { id := 2, pkgPath := "example.com/app", name := "G", kind := .func,
        recvType := "", file := "a.go", line := 2, sig := "" }],
    callEdges := [
      { callerId := 1, calleeId := 2, callerFile := "print.go", callerLine := 9,
        callKind := .static, count := 1 }],
    tags := [] }

/-- The concrete response of the root query on `storeA` (used by witnesses). -/
def respA : GraphResponse :=
  (buildFromRoot storeA {} 1 1).getD
    { nodes := [], edges := [], rootId := 0, maxDepth := 0, filtered := 0 }

/-- A store holding only a handler in an imported package: the handler can
    be resolved only through the `(import_path, Method, "")` lookup. -/
def storeC : StoreState :=
  { symbols := [
      { id := 7, pkgPath := "example.com/app/handlers", name := "HandleX",
        kind := .func, recvType := "", file := "h.go", line := 4, sig := "" }],
    callEdges := [], tags := [] }

/-- The registering file: it imports `example.com/app/handlers` without an
    explicit alias, so the alias `handlers` resolves to that path. -/
def fileC : FileAst :=
  { imports := [{ name := none, path := "example.com/app/handlers" }] }

/-- A store holding the cobra `Run` handler `runServe`. -/
def storeD : StoreState :=
  { symbols := [
      { id := 3, pkgPath := "example.com/app", name := "runServe",
        kind := .func, recvType := "", file := "cmd.go", line := 10, sig := "" }],
    callEdges := [], tags := [] }

/-- `&cobra.Command{Use: " ", Run: runServe}`: a whitespace-only `Use`. -/
def cmdWhitespaceUse : CommandInfo :=
  { use := " ", runHandler := some (.ident "runServe"), runEHandler := none }

/-- A static call instruction resolving to symbol 2 of `storeA`. -/
def instrC9 : InstrM :=
  InstrM.call (some ({ filename := "a.go", line := 5 } : SrcPos))
    ({ staticCallee :=
         some ({ pkgPath := "example.com/app", name := "G", recvType := "" } : FnRef),
       isInvoke := false, methodName := none, ifaceName := "",
       value := .otherValue } : CallCommonM)

/-- The edge `extractCallEdge` produces for `instrC9`. -/
def edgeC9 : CallEdgeRow :=
  { callerId := 1, calleeId := 2, callerFile := "a.go", callerLine := 5,
    callKind := .static, count := 1 }

/-! # Theorems -/

/-! ## Lemmas about the string primitives -/

theorem isSuffixOf_trans (l₂ : List Char) {l₁ l₃ : List Char}
    (h₁ : l₁.isSuffixOf l₂) (h₂ : l₂.isSuffixOf l₃) : l₁.isSuffixOf l₃ := by
  rw [List.isSuffixOf_iff_suffix] at *
  exact h₁.trans h₂

/-- A pattern that ends in `"/*"` also ends in `"*"`. -/
theorem goEndsWith_star_of_slashStar {p : String} (h : goEndsWith p "/*") :
    goEndsWith p "*" := by
  unfold goEndsWith at *
  exact isSuffixOf_trans ("/*".data) (by decide) h

/-- The `"/*"` branch of `matchPackagePattern` is unreachable: the function
    reduces to exact match or star-prefix match. -/
theorem matchPackagePattern_eq (p pkg : String) :
    matchPackagePattern p pkg =
      (p = pkg || (goEndsWith p "*" && goStartsWith pkg (goDropRight p 1))) := by
  unfold matchPackagePattern
  by_cases h₁ : p = pkg
  · simp [h₁]
  · by_cases h₂ : goEndsWith p "*"
    · simp [h₁, h₂]
    · have h₃ : ¬ goEndsWith p "/*" := fun hc => h₂ (goEndsWith_star_of_slashStar hc)
      simp [h₁, h₂, h₃]

/-! ## Basic lemmas about the store model -/

theorem findSymbol_id {st : StoreState} {i : Nat} {sym : Symbol}
    (h : findSymbol st i = some sym) : sym.id = i := by
  unfold findSymbol at h
  have := List.find?_some h
  simpa using this

theorem findSymbol_mem {st : StoreState} {i : Nat} {sym : Symbol}
    (h : findSymbol st i = some sym) : sym ∈ st.symbols :=
  List.mem_of_find?_eq_some h

/-! ## Claim C1: depth clamping and `max_depth = 0` -/

/-- With `maxD = 0` the expansion is a no-op (the Go guard
    `currentDepth >= maxDepth` fires immediately). -/
theorem expandGo_maxD_zero (st : StoreState) (f : GraphFilter) (fuel s d : Nat)
    (g : GBState) : expandGo st f fuel s 0 d g = g := by
  cases fuel <;> simp [expandGo]

/-- C1 counterexample: a filter with `max_depth = 0` does NOT clamp — the
    requested depth (here 1) is used unchanged, and the response contains a
    non-root node and an edge.  Refutes "a spanning-subgraph query whose
    filter has max_depth = 0 returns only the root node". -/
theorem c1_counterexample :
    (buildFromRoot storeA { maxDepth := 0 } 1 1).map
        (fun r => (r.nodes.map (fun n => n.id), r.edges.length))
      = some ([1, 2], 1) := by
  decide

/-- Clamping is idempotent when `max_depth` is positive: the effective depth
    of `d` is the effective depth of `min d max_depth`. -/
theorem effectiveDepth_min {f : GraphFilter} (h : 0 < f.maxDepth) (d : Nat) :
    effectiveDepth f d = effectiveDepth f (min d f.maxDepth) := by
  unfold effectiveDepth
  split <;> split <;> omega

/-- On a consistent lookup, `addNode` on the fresh builder state either bumps
    the filter counter or records exactly the root node. -/
theorem addNode_empty (st : StoreState) (f : GraphFilter) (id depth : Nat)
    (expanded : Bool) (sym : Symbol) (hfind : findSymbol st id = some sym) :
    addNode st f id depth expanded {} =
      some (if shouldFilter f sym then { filtered := 1 }
            else { nodes := [nodeOfSymbol st sym depth expanded] }) := by
  unfold addNode
  rw [hfind]
  by_cases hfilt : shouldFilter f sym <;> simp [hfilt]

/-- C1 (amended): the requested depth is clamped to `filter.max_depth` only
    when `max_depth` is positive (then the query equals the one at the
    clamped depth `min depth max_depth`); a filter with `max_depth = 0`
    applies no clamp, and only a requested depth of `0` returns just the
    root (and no edges). -/
theorem c1_clamp_only_when_positive (st : StoreState) (f : GraphFilter)
    (root d : Nat) :
    (0 < f.maxDepth →
      buildFromRoot st f root d = buildFromRoot st f root (min d f.maxDepth)) ∧
    (∀ resp, buildFromRoot st f root 0 = some resp →
      resp.edges = [] ∧ ∀ n ∈ resp.nodes, n.id = root) := by
  constructor
  · intro h
    unfold buildFromRoot
    rw [effectiveDepth_min h d]
  · intro resp hresp
    unfold buildFromRoot at hresp
    have hz : effectiveDepth f 0 = 0 := by unfold effectiveDepth; split <;> omega
    rw [hz] at hresp
    rcases hfind : findSymbol st root with _ | sym
    · unfold addNode at hresp
      rw [hfind] at hresp
      exact absurd hresp (by simp)
    · rw [addNode_empty st f root 0 true sym hfind] at hresp
      simp only [Option.some.injEq] at hresp
      rw [expandGo_maxD_zero] at hresp
      subst hresp
      have hid := findSymbol_id hfind
      by_cases hfilt : shouldFilter f sym <;>
        simp [hfilt, buildResponse, nodeOfSymbol, hid]

/-- Witness for `c1_clamp_only_when_positive` at a positive `max_depth` and
    at depth `0` on the concrete store. -/
theorem c1_witness :
    (buildFromRoot storeA { maxDepth := 1 } 1 5
        = buildFromRoot storeA { maxDepth := 1 } 1 (min 5 1)) ∧
    ((buildFromRoot storeA { maxDepth := 1 } 1 0).map (fun r => r.edges)
        = some []) := by
  refine ⟨(c1_clamp_only_when_positive storeA { maxDepth := 1 } 1 5).1 (by decide), ?_⟩
  rcases hresp : buildFromRoot storeA { maxDepth := 1 } 1 0 with _ | resp
  · exact absurd hresp (by decide)
  · have := ((c1_clamp_only_when_positive storeA { maxDepth := 1 } 1 0).2 resp hresp).1
    simp [this]

/-! ## Claim C3: package pattern matching -/

/-- C3 counterexample: the pattern `"foo/*"` does not match the bare package
    `"foo"` in the code, while the claimed relation says it does. -/
theorem c3_counterexample :
    matchPackagePattern "foo/*" "foo" = false
      ∧ matchPackagePatternSpec "foo/*" "foo" = true := by
  decide

/-- C3 (amended): `matchPackagePattern p pkg` is true exactly when `p` equals
    `pkg`, or `p` ends with `*` and `pkg` has the prefix `p` without the star.
    The `/*` clause of the claim is unreachable in the code (a pattern ending
    in `/*` already ends in `*`), so `"foo/*"` matches only packages with
    prefix `"foo/"`, never the bare package `"foo"`. -/
theorem c3_pattern_matching (p pkg : String) :
    matchPackagePattern p pkg = true ↔
      (p = pkg ∨ (goEndsWith p "*" = true ∧
                  goStartsWith pkg (goDropRight p 1) = true)) := by
  rw [matchPackagePattern_eq]
  simp

/-! ## Claim C2: edge endpoints and the node set -/

/-- The ids of the nodes recorded so far. -/
def nId (g : GBState) : List Nat := g.nodes.map (fun n => n.id)

/-- The endpoint invariant: every recorded edge has its target among the
    recorded nodes, and its source among the nodes unless it is the seed. -/
def edgeInv (root : Nat) (g : GBState) : Prop :=
  ∀ e ∈ g.edges,
    e.targetId ∈ nId g ∧ (e.sourceId ∈ nId g ∨ e.sourceId = root)

theorem nId_markExpanded (s : Nat) (g : GBState) :
    nId (markExpanded s g) = nId g := by
  unfold nId markExpanded
  rw [List.map_map]
  apply List.map_congr_left
  intro n _
  by_cases h : n.id = s <;> simp [h]

theorem edges_markExpanded (s : Nat) (g : GBState) :
    (markExpanded s g).edges = g.edges := rfl

theorem addNode_mono {st : StoreState} {f : GraphFilter} {id depth : Nat}
    {ex : Bool} {g g' : GBState} (h : addNode st f id depth ex g = some g') :
    (∀ x ∈ nId g, x ∈ nId g') ∧ g'.edges = g.edges := by
  unfold addNode at h
  by_cases hmem : g.nodes.any (fun n => n.id = id)
  · rw [if_pos hmem] at h
    cases h
    exact ⟨fun x hx => hx, rfl⟩
  · rw [if_neg hmem] at h
    rcases hfind : findSymbol st id with _ | sym
    · rw [hfind] at h; cases h
    · rw [hfind] at h
      dsimp only at h
      by_cases hfilt : shouldFilter f sym
      · rw [if_pos hfilt] at h
        cases h
        exact ⟨fun x hx => hx, rfl⟩
      · rw [if_neg hfilt] at h
        cases h
        refine ⟨fun x hx => ?_, rfl⟩
        unfold nId at *
        simpa using Or.inl (by simpa using hx)

theorem addNode_adds {st : StoreState} {f : GraphFilter} {id depth : Nat}
    {ex : Bool} {g g' : GBState} {sym : Symbol}
    (hfind : findSymbol st id = some sym) (hfilt : shouldFilter f sym = false)
    (h : addNode st f id depth ex g = some g') : id ∈ nId g' := by
  unfold addNode at h
  by_cases hmem : g.nodes.any (fun n => n.id = id)
  · rw [if_pos hmem] at h
    cases h
    unfold nId
    rcases List.any_eq_true.mp hmem with ⟨n, hn, hid⟩
    exact List.mem_map.mpr ⟨n, hn, by simpa using hid⟩
  · rw [if_neg hmem, hfind] at h
    dsimp only at h
    rw [hfilt] at h
    simp only [Bool.false_eq_true, if_false, Option.some.injEq] at h
    subst h
    unfold nId
    have hid := findSymbol_id hfind
    simp [nodeOfSymbol, hid]

/-- `addNode` succeeds whenever the symbol id resolves. -/
theorem addNode_isSome (depth : Nat) (ex : Bool) (g : GBState)
    {st : StoreState} {f : GraphFilter} {id : Nat} {sym : Symbol}
    (hfind : findSymbol st id = some sym) :
    ∃ g', addNode st f id depth ex g = some g' := by
  unfold addNode
  by_cases hmem : g.nodes.any (fun n => n.id = id)
  · exact ⟨g, if_pos hmem⟩
  · rw [if_neg hmem, hfind]
    dsimp only
    by_cases hfilt : shouldFilter f sym <;> simp [hfilt]

/-- Every callee returned by `getCallees` carries its own store row. -/
theorem getCallees_symbol {st : StoreState} {s : Nat} :
    ∀ c ∈ getCallees st s, findSymbol st c.symbol.id = some c.symbol := by
  intro c hc
  unfold getCallees at hc
  rcases List.mem_filterMap.mp hc with ⟨row, _, hrow⟩
  rcases hfind : findSymbol st row.calleeId with _ | sym
  · rw [hfind] at hrow; cases hrow
  · rw [hfind] at hrow
    simp only [Option.map_some', Option.some.injEq] at hrow
    subst hrow
    simpa [findSymbol_id hfind] using hfind

/-- The per-edge property established by the aggregation loop. -/
def aggEdgeOk (st : StoreState) (f : GraphFilter) (s : Nat) (e : GraphEdge) : Prop :=
  e.sourceId = s ∧
    ∃ sym, findSymbol st e.targetId = some sym ∧ shouldFilter f sym = false

theorem aggStep_pres {st : StoreState} {f : GraphFilter} {s : Nat}
    {acc : List GraphEdge × Nat} {c : CalleeInfo}
    (hsym : findSymbol st c.symbol.id = some c.symbol)
    (hacc : ∀ e ∈ acc.1, aggEdgeOk st f s e) :
    ∀ e ∈ (aggStep f s acc c).1, aggEdgeOk st f s e := by
  unfold aggStep
  by_cases hfilt : shouldFilter f c.symbol
  · simpa [hfilt] using hacc
  · rw [if_neg hfilt]
    by_cases hdup : acc.1.any (fun e => e.targetId = c.symbol.id)
    · rw [if_pos hdup]
      intro e he
      rcases List.mem_map.mp he with ⟨e₀, he₀, hmap⟩
      have h₀ := hacc e₀ he₀
      by_cases hid : e₀.targetId = c.symbol.id <;>
        · subst hmap
          simpa [hid, aggEdgeOk] using h₀
    · rw [if_neg hdup]
      intro e he
      rcases List.mem_append.mp he with h | h
      · exact hacc e h
      · rcases List.mem_singleton.mp h with rfl
        exact ⟨rfl, c.symbol, hsym, Bool.not_eq_true _ ▸ by simpa using hfilt⟩

theorem aggFold_pres {st : StoreState} {f : GraphFilter} {s : Nat} :
    ∀ (callees : List CalleeInfo) (acc : List GraphEdge × Nat),
      (∀ c ∈ callees, findSymbol st c.symbol.id = some c.symbol) →
      (∀ e ∈ acc.1, aggEdgeOk st f s e) →
      ∀ e ∈ (callees.foldl (aggStep f s) acc).1, aggEdgeOk st f s e := by
  intro callees
  induction callees with
  | nil => intro acc _ hacc; simpa using hacc
  | cons c rest ih =>
    intro acc hc hacc
    exact ih (aggStep f s acc c) (fun c' hc' => hc c' (List.mem_cons_of_mem _ hc'))
      (aggStep_pres (hc c (List.mem_cons_self _ _)) hacc)

/-- The target of every aggregated edge resolves to an unfiltered symbol, and
    its source is the expanded node. -/
theorem aggregate_spec {st : StoreState} {f : GraphFilter} {s : Nat}
    {callees : List CalleeInfo}
    (hc : ∀ c ∈ callees, findSymbol st c.symbol.id = some c.symbol) :
    ∀ e ∈ (aggregateCallees f s callees).1, aggEdgeOk st f s e :=
  aggFold_pres callees ([], 0) hc (by simp)

theorem edgeInv_markExpanded {root s : Nat} {g : GBState}
    (h : edgeInv root g) : edgeInv root (markExpanded s g) := by
  intro e he
  rw [edges_markExpanded] at he
  rw [nId_markExpanded]
  exact h e he

/-- Node ids only grow along the edge loop, provided they only grow along
    the recursive expansion. -/
theorem expandEdges_nId_mono {st : StoreState} {f : GraphFilter}
    {recur : Nat → GBState → GBState} {nd : Nat}
    (hrec : ∀ t g, ∀ x ∈ nId g, x ∈ nId (recur t g)) :
    ∀ (es : List GraphEdge) (g : GBState),
      ∀ x ∈ nId g, x ∈ nId (expandEdges st f recur nd es g) := by
  intro es
  induction es with
  | nil => intro g x hx; simpa [expandEdges] using hx
  | cons e rest ih =>
    intro g x hx
    rw [expandEdges]
    apply ih
    rcases hadd : addNode st f e.targetId nd false { g with edges := g.edges ++ [e] }
      with _ | g'
    · simpa [nId] using hx
    · exact hrec _ _ x ((addNode_mono hadd).1 x (by simpa [nId] using hx))

/-- Node ids only grow along `expand`. -/
theorem expandGo_nId_mono {st : StoreState} {f : GraphFilter} :
    ∀ (fuel s maxD d : Nat) (g : GBState),
      ∀ x ∈ nId g, x ∈ nId (expandGo st f fuel s maxD d g) := by
  intro fuel
  induction fuel with
  | zero => intro s maxD d g x hx; simpa [expandGo] using hx
  | succ fuel' ih =>
    intro s maxD d g x hx
    rw [expandGo]
    by_cases h₁ : maxD ≤ d
    · simpa [h₁] using hx
    · rw [if_neg h₁]
      by_cases h₂ : s ∈ g.visited
      · simpa [h₂] using hx
      · rw [if_neg h₂]
        rcases hfind : findSymbol st s with _ | sym
        · simpa [nId] using hx
        · dsimp only
          by_cases h₃ : shouldStopExpansion f sym (getSymbolTags st s)
          · simpa [h₃, nId] using hx
          · rw [if_neg h₃, nId_markExpanded]
            exact expandEdges_nId_mono (fun t g' => ih t maxD (d + 1) g') _ _ x
              (by simpa [nId] using hx)

/-- The endpoint invariant is preserved by the edge loop. -/
theorem expandEdges_inv {st : StoreState} {f : GraphFilter} {root s : Nat}
    {recur : Nat → GBState → GBState} {nd : Nat}
    (hmono : ∀ t g, ∀ x ∈ nId g, x ∈ nId (recur t g))
    (hinv : ∀ t g, edgeInv root g → t ∈ nId g → edgeInv root (recur t g)) :
    ∀ (es : List GraphEdge) (g : GBState),
      edgeInv root g → (∀ e ∈ es, aggEdgeOk st f s e) → (s ∈ nId g ∨ s = root) →
      edgeInv root (expandEdges st f recur nd es g) := by
  intro es
  induction es with
  | nil => intro g hg _ _; simpa [expandEdges] using hg
  | cons e rest ih =>
    intro g hg hes hs
    obtain ⟨hsrc, sym, hfind, hflt⟩ := hes e (List.mem_cons_self _ _)
    obtain ⟨g', hadd⟩ :=
      addNode_isSome nd false { g with edges := g.edges ++ [e] } hfind
    obtain ⟨haddm, haddE⟩ := addNode_mono hadd
    have htmem : e.targetId ∈ nId g' := addNode_adds hfind hflt hadd
    have hg₁ : ∀ x ∈ nId g, x ∈ nId g' := fun x hx => haddm x (by simpa [nId] using hx)
    have hinvg' : edgeInv root g' := by
      intro e' he'
      rw [haddE] at he'
      rcases List.mem_append.mp he' with h | h
      · obtain ⟨ht, hsr⟩ := hg e' h
        exact ⟨hg₁ _ ht, hsr.imp_left (hg₁ _)⟩
      · rcases List.mem_singleton.mp h with rfl
        refine ⟨htmem, ?_⟩
        rw [hsrc]
        exact hs.imp_left (hg₁ _)
    rw [expandEdges, hadd]
    apply ih _ (hinv _ _ hinvg' htmem) (fun e' he' => hes e' (List.mem_cons_of_mem _ he'))
    exact hs.imp_left (fun hx => hmono _ _ s (hg₁ s hx))

/-- The endpoint invariant is preserved by `expand`. -/
theorem expandGo_inv {st : StoreState} {f : GraphFilter} {root : Nat} :
    ∀ (fuel s maxD d : Nat) (g : GBState),
      edgeInv root g → (s ∈ nId g ∨ s = root) →
      edgeInv root (expandGo st f fuel s maxD d g) := by
  intro fuel
  induction fuel with
  | zero => intro s maxD d g hg _; simpa [expandGo] using hg
  | succ fuel' ih =>
    intro s maxD d g hg hs
    rw [expandGo]
    by_cases h₁ : maxD ≤ d
    · simpa [h₁] using hg
    · rw [if_neg h₁]
      by_cases h₂ : s ∈ g.visited
      · simpa [h₂] using hg
      · rw [if_neg h₂]
        rcases hfind : findSymbol st s with _ | sym
        · exact fun e he => hg e he
        · dsimp only
          by_cases h₃ : shouldStopExpansion f sym (getSymbolTags st s)
          · rw [if_pos h₃]
            exact fun e he => hg e he
          · rw [if_neg h₃]
            apply edgeInv_markExpanded
            exact expandEdges_inv
              (fun t g' => expandGo_nId_mono fuel' t maxD (d + 1) g')
              (fun t g' hg' ht => ih t maxD (d + 1) g' hg' (Or.inl ht))
              _ _ (fun e he => hg e he)
              (aggregate_spec (fun c hc => getCallees_symbol c hc))
              hs

/-- C2 counterexample: with `hide_stdlib` set and a stdlib root, the
    response keeps the root's outgoing edge but drops the root node, so the
    edge's `source_id` is not in the node set. -/
theorem c2_counterexample :
    (buildFromRoot storeB { hideStdlib := true } 1 1).map
        (fun r => (r.nodes.map (fun n => n.id),
                   r.edges.map (fun e => (e.sourceId, e.targetId))))
      = some ([2], [(1, 2)]) := by
  decide

/-- C2 (amended): in every graph response (root query or expand), every
    edge's `target_id` appears in the node set; every edge's `source_id`
    appears in the node set unless it is the query's root/seed symbol, and
    it always appears when the root symbol itself passes the node filters. -/
theorem c2_edge_endpoints (st : StoreState) (f : GraphFilter) (root d : Nat)
    (resp : GraphResponse)
    (h : buildFromRoot st f root d = some resp ∨ expandQuery st f root d = some resp) :
    (∀ e ∈ resp.edges, ∃ n ∈ resp.nodes, n.id = e.targetId) ∧
    (∀ e ∈ resp.edges, (∃ n ∈ resp.nodes, n.id = e.sourceId) ∨ e.sourceId = root) ∧
    (∀ sym, findSymbol st root = some sym → shouldFilter f sym = false →
      ∀ e ∈ resp.edges, ∃ n ∈ resp.nodes, n.id = e.sourceId) := by
  have main : ∀ (dd : Nat) (g₀ : GBState),
      addNode st f root 0 true {} = some g₀ →
      resp = buildResponse root dd (expandGo st f (dd + 1) root dd 0 g₀) →
      (∀ e ∈ resp.edges, ∃ n ∈ resp.nodes, n.id = e.targetId) ∧
      (∀ e ∈ resp.edges, (∃ n ∈ resp.nodes, n.id = e.sourceId) ∨ e.sourceId = root) ∧
      (∀ sym, findSymbol st root = some sym → shouldFilter f sym = false →
        ∀ e ∈ resp.edges, ∃ n ∈ resp.nodes, n.id = e.sourceId) := by
    intro dd g₀ hadd hresp
    have hE : g₀.edges = [] := (addNode_mono hadd).2
    have hg₀ : edgeInv root g₀ := by
      intro e he
      rw [hE] at he
      cases he
    have hfin : edgeInv root (expandGo st f (dd + 1) root dd 0 g₀) :=
      expandGo_inv _ root dd 0 g₀ hg₀ (Or.inr rfl)
    have hnodes : resp.nodes = (expandGo st f (dd + 1) root dd 0 g₀).nodes := by
      rw [hresp]; rfl
    have hedges : resp.edges = (expandGo st f (dd + 1) root dd 0 g₀).edges := by
      rw [hresp]; rfl
    have hmem : ∀ x, x ∈ nId (expandGo st f (dd + 1) root dd 0 g₀) ↔
        ∃ n ∈ resp.nodes, n.id = x := by
      intro x
      rw [hnodes]
      unfold nId
      simp [List.mem_map]
    refine ⟨?_, ?_, ?_⟩
    · intro e he
      exact (hmem _).mp (hfin e (hedges ▸ he)).1
    · intro e he
      exact ((hfin e (hedges ▸ he)).2).imp_left ((hmem _).mp)
    · intro sym hfind hflt e he
      rcases (hfin e (hedges ▸ he)).2 with hsrc | hsrc
      · exact (hmem _).mp hsrc
      · rw [hsrc]
        refine (hmem _).mp ?_
        exact expandGo_nId_mono _ root dd 0 g₀ root (addNode_adds hfind hflt hadd)
  rcases h with h | h
  · unfold buildFromRoot at h
    rcases hadd : addNode st f root 0 true {} with _ | g₀
    · rw [hadd] at h; cases h
    · rw [hadd] at h
      dsimp only at h
      exact main (effectiveDepth f d) g₀ hadd (by cases h; rfl)
  · unfold expandQuery at h
    have hseed : seedNode st f root {} = addNode st f root 0 true {} := rfl
    rw [hseed] at h
    rcases hadd : addNode st f root 0 true {} with _ | g₀
    · rw [hadd] at h
      cases h
    · rw [hadd] at h
      dsimp only at h
      exact main d g₀ hadd (by cases h; rfl)

/-- Witness for `c2_edge_endpoints` at the concrete root query on `storeA`. -/
theorem c2_witness :
    (buildFromRoot storeA {} 1 1 = some respA ∨ expandQuery storeA {} 1 1 = some respA) ∧
    ((∀ e ∈ respA.edges, ∃ n ∈ respA.nodes, n.id = e.targetId) ∧
     (∀ e ∈ respA.edges, (∃ n ∈ respA.nodes, n.id = e.sourceId) ∨ e.sourceId = 1) ∧
     (∀ sym, findSymbol storeA 1 = some sym → shouldFilter {} sym = false →
       ∀ e ∈ respA.edges, ∃ n ∈ respA.nodes, n.id = e.sourceId)) :=
  have h : buildFromRoot storeA {} 1 1 = some respA := by decide
  ⟨Or.inl h, c2_edge_endpoints storeA {} 1 1 respA (Or.inl h)⟩

/-! ## Claim C7: duplicate call-edge insertion accumulates `count` -/

theorem sameEdgeKey_self (e : CallEdgeRow) : sameEdgeKey e e = true := by
  simp [sameEdgeKey]

/-- C7: inserting the same call edge twice (identical caller, callee, file,
    line, each insert carrying count 1) into a table that does not yet hold
    that key leaves exactly one row with that key, and its count is 2. -/
theorem c7_duplicate_edge_count (rows : List CallEdgeRow) (e : CallEdgeRow)
    (hcount : e.count = 1)
    (hfresh : ∀ r ∈ rows, sameEdgeKey r e = false) :
    ((insertCallEdge (insertCallEdge rows e) e).filter
        (fun r => sameEdgeKey r e)).length = 1 ∧
    ∀ r ∈ insertCallEdge (insertCallEdge rows e) e,
      sameEdgeKey r e = true → r.count = 2 := by
  have hany : rows.any (fun r => sameEdgeKey r e) = false := by
    rw [List.any_eq_false]
    intro r hr
    simp [hfresh r hr]
  have h1 : insertCallEdge rows e = rows ++ [e] := by
    unfold insertCallEdge
    rw [hany]
    simp
  have hany2 : (rows ++ [e]).any (fun r => sameEdgeKey r e) = true := by
    rw [List.any_eq_true]
    exact ⟨e, by simp, sameEdgeKey_self e⟩
  have hmapid : rows.map (fun r =>
      if sameEdgeKey r e then { r with count := r.count + e.count } else r) = rows := by
    conv_rhs => rw [← List.map_id rows]
    apply List.map_congr_left
    intro r hr
    simp [hfresh r hr]
  have h2 : insertCallEdge (insertCallEdge rows e) e
      = rows ++ [{ e with count := e.count + e.count }] := by
    rw [h1]
    unfold insertCallEdge
    rw [hany2]
    simp only [if_true, List.map_append, List.map_cons, List.map_nil,
      sameEdgeKey_self e, hmapid]
  have hbump : sameEdgeKey { e with count := e.count + e.count } e = true := by
    simp [sameEdgeKey]
  constructor
  · rw [h2, List.filter_append]
    have hnil : rows.filter (fun r => sameEdgeKey r e) = [] := by
      rw [List.filter_eq_nil_iff]
      intro r hr
      simp [hfresh r hr]
    simp [hnil, hbump]
  · intro r hr hkeyr
    rw [h2] at hr
    rcases List.mem_append.mp hr with h | h
    · exact absurd hkeyr (by simp [hfresh r h])
    · rcases List.mem_singleton.mp h with rfl
      simp [hcount]

/-- Witness for `c7_duplicate_edge_count` on the empty table. -/
theorem c7_witness :
    ((insertCallEdge (insertCallEdge []
        { callerId := 1, calleeId := 2, callerFile := "a.go", callerLine := 5,
          callKind := .static, count := 1 })
        { callerId := 1, calleeId := 2, callerFile := "a.go", callerLine := 5,
          callKind := .static, count := 1 }).filter
        (fun r => sameEdgeKey r
          { callerId := 1, calleeId := 2, callerFile := "a.go", callerLine := 5,
            callKind := .static, count := 1 })).length = 1 :=
  (c7_duplicate_edge_count []
    { callerId := 1, calleeId := 2, callerFile := "a.go", callerLine := 5,
      callKind := .static, count := 1 }
    (by decide) (by intro r hr; cases hr)).1

/-! ## Claim C8: symbol upsert id semantics -/

theorem symKey_self (sym : Symbol) (n : Nat) :
    symKey { sym with id := n } sym.pkgPath sym.name sym.recvType = true := by
  simp [symKey]

/-- C8 counterexample: insert A (assigned id 1), insert B (assigned id 2),
    then upsert A again — the repeated insert REPORTS id 2 (the connection's
    stale `last_insert_rowid`), not A's id 1, although the stored row for A
    still has id 1.  Refutes "the insert operation reports that same id on
    the repeated insert". -/
theorem c8_counterexample :
    (insertSymbol symTable0 symA).1 = 1 ∧
    (insertSymbol (insertSymbol (insertSymbol symTable0 symA).2 symB).2 symA).1 = 2 ∧
    ((insertSymbol (insertSymbol (insertSymbol symTable0 symA).2 symB).2 symA).2.rows.filter
        (fun r => symKey r symA.pkgPath symA.name symA.recvType)).map (fun r => r.id)
      = [1] := by
  decide

/-- C8 (amended): on a conflicting upsert the stored row keeps the id it was
    assigned on first insertion (ids of all rows are unchanged); and when the
    repeated insert immediately follows the first (no intervening insert on
    the connection), the reported id equals the id reported by the first
    insert.  After an intervening insert the reported id is the intervening
    row's id (see the counterexample). -/
theorem c8_upsert_preserves_id (t : SymTable) (sym : Symbol) :
    (t.rows.any (fun r => symKey r sym.pkgPath sym.name sym.recvType) = true →
      (insertSymbol t sym).2.rows.map (fun r => r.id) = t.rows.map (fun r => r.id)) ∧
    (t.rows.any (fun r => symKey r sym.pkgPath sym.name sym.recvType) = false →
      (insertSymbol (insertSymbol t sym).2 sym).1 = (insertSymbol t sym).1 ∧
      ∀ r ∈ (insertSymbol (insertSymbol t sym).2 sym).2.rows,
        symKey r sym.pkgPath sym.name sym.recvType = true →
        r.id = (insertSymbol t sym).1) := by
  constructor
  · intro hdup
    unfold insertSymbol
    rw [hdup]
    simp only [if_true, List.map_map]
    apply List.map_congr_left
    intro r _
    by_cases h : symKey r sym.pkgPath sym.name sym.recvType <;> simp [h]
  · intro hfresh
    have hall : ∀ r ∈ t.rows, symKey r sym.pkgPath sym.name sym.recvType = false :=
      fun r hr => by
        have := List.any_eq_false.mp hfresh r hr
        simpa using this
    have h1 : insertSymbol t sym =
        (t.nextId,
         { rows := t.rows ++ [{ sym with id := t.nextId }],
           nextId := t.nextId + 1, lastRowid := t.nextId }) := by
      unfold insertSymbol
      rw [hfresh]
      simp
    have hany2 : (t.rows ++ [{ sym with id := t.nextId }]).any
        (fun r => symKey r sym.pkgPath sym.name sym.recvType) = true := by
      rw [List.any_eq_true]
      exact ⟨{ sym with id := t.nextId }, by simp, symKey_self sym t.nextId⟩
    rw [h1]
    unfold insertSymbol
    dsimp only
    rw [hany2]
    simp only [if_true]
    refine ⟨by trivial, ?_⟩
    intro r hr hkeyr
    rcases List.mem_map.mp hr with ⟨r₀, hr₀, hupd⟩
    rcases List.mem_append.mp hr₀ with h | h
    · have hk₀ : symKey r₀ sym.pkgPath sym.name sym.recvType = false := hall r₀ h
      rw [hk₀] at hupd
      simp only [Bool.false_eq_true, if_false] at hupd
      subst hupd
      exact absurd hkeyr (by simp [hk₀])
    · rcases List.mem_singleton.mp h with rfl
      rw [symKey_self sym t.nextId] at hupd
      simp only [if_true] at hupd
      subst hupd
      rfl

/-- Witness for `c8_upsert_preserves_id` on the empty table. -/
theorem c8_witness :
    (insertSymbol (insertSymbol symTable0 symA).2 symA).1
      = (insertSymbol symTable0 symA).1 :=
  ((c8_upsert_preserves_id symTable0 symA).2 (by decide)).1

/-! ## Claim C4: purity tagging -/

theorem calleesWithTags_eq_nil_iff (st : StoreState) (c : Nat) :
    calleesWithTags st c = [] ↔ ∀ e ∈ st.callEdges, e.callerId ≠ c := by
  unfold calleesWithTags
  rw [List.filterMap_eq_nil_iff]
  constructor
  · intro h e he hc
    have hp : (c, e.calleeId) ∈ distinctPairs st.callEdges := by
      unfold distinctPairs
      rw [List.mem_dedup]
      exact List.mem_map.mpr ⟨e, he, by simp [pairOf, hc]⟩
    have := h (c, e.calleeId) hp
    simp at this
  · intro h p hp
    unfold distinctPairs at hp
    rw [List.mem_dedup] at hp
    rcases List.mem_map.mp hp with ⟨e, he, hpe⟩
    have hne : p.1 ≠ c := by
      rw [← hpe]
      simpa [pairOf] using h e he
    simp [hne]

theorem calleesWithTags_any_io_iff (st : StoreState) (c : Nat) :
    ((calleesWithTags st c).any
        (fun x => x.tags.any (fun tg => goStartsWith tg "io:")) = true)
      ↔ ∃ e ∈ st.callEdges, e.callerId = c ∧
          ∃ tg ∈ st.tags, tg.symbolId = e.calleeId ∧
            goStartsWith tg.tag "io:" = true := by
  constructor
  · intro h
    rcases List.any_eq_true.mp h with ⟨x, hx, hio⟩
    rcases List.mem_filterMap.mp hx with ⟨p, hp, hpx⟩
    by_cases hpc : p.1 = c
    · rw [if_pos hpc] at hpx
      rcases Option.some.inj hpx with rfl
      rcases List.any_eq_true.mp hio with ⟨tgs, htgs, hpre⟩
      rcases List.mem_map.mp htgs with ⟨tr, htr, rfl⟩
      unfold getSymbolTags at htr
      rcases List.mem_filter.mp htr with ⟨htr_mem, htr_sym⟩
      unfold distinctPairs at hp
      rw [List.mem_dedup] at hp
      rcases List.mem_map.mp hp with ⟨e, he, hpe⟩
      refine ⟨e, he, ?_, tr, htr_mem, ?_, hpre⟩
      · have : e.callerId = p.1 := by rw [← hpe]; rfl
        rw [this, hpc]
      · have : e.calleeId = p.2 := by rw [← hpe]; rfl
        rw [this]
        exact of_decide_eq_true htr_sym
    · rw [if_neg hpc] at hpx
      cases hpx
  · rintro ⟨e, he, hc, tg, htg, hsym, hio⟩
    apply List.any_eq_true.mpr
    refine ⟨{ callerId := c, calleeId := e.calleeId,
              tags := (getSymbolTags st e.calleeId).map (fun t => t.tag) }, ?_, ?_⟩
    · apply List.mem_filterMap.mpr
      refine ⟨(c, e.calleeId), ?_, by simp⟩
      unfold distinctPairs
      rw [List.mem_dedup]
      exact List.mem_map.mpr ⟨e, he, by simp [pairOf, hc]⟩
    · apply List.any_eq_true.mpr
      refine ⟨tg.tag, ?_, hio⟩
      apply List.mem_map.mpr
      refine ⟨tg, ?_, rfl⟩
      unfold getSymbolTags
      exact List.mem_filter.mpr ⟨htg, by simp [hsym]⟩

/-- C4: the purity pass tags a function/method `pure-ish` with reason
    "No outgoing function calls" when it has no outgoing call edges, tags it
    `pure-ish` with reason "No calls to I/O functions" when it has outgoing
    edges but no direct callee carries a tag with prefix `io:`, and applies
    no purity tag to it when some direct callee carries an `io:` tag. -/
theorem c4_purity_tagging (st : StoreState) (sym : Symbol)
    (hmem : sym ∈ st.symbols)
    (huniq : ∀ s₁ ∈ st.symbols, ∀ s₂ ∈ st.symbols, s₁.id = s₂.id → s₁ = s₂)
    (hkind : sym.kind = SymbolKind.func ∨ sym.kind = SymbolKind.method) :
    ((∀ e ∈ st.callEdges, e.callerId ≠ sym.id) →
      ({ symbolId := sym.id, tag := "pure-ish",
         reason := "No outgoing function calls" } : TagRow) ∈ purityPass st) ∧
    (((∃ e ∈ st.callEdges, e.callerId = sym.id) ∧
      (∀ e ∈ st.callEdges, e.callerId = sym.id →
        ∀ tg ∈ st.tags, tg.symbolId = e.calleeId →
          goStartsWith tg.tag "io:" = false)) →
      ({ symbolId := sym.id, tag := "pure-ish",
         reason := "No calls to I/O functions" } : TagRow) ∈ purityPass st) ∧
    ((∃ e ∈ st.callEdges, e.callerId = sym.id ∧
        ∃ tg ∈ st.tags, tg.symbolId = e.calleeId ∧
          goStartsWith tg.tag "io:" = true) →
      ∀ tg ∈ purityPass st, tg.symbolId ≠ sym.id) := by
  have hft : symbolForTagging sym ∈ getAllSymbolsForTagging st :=
    List.mem_map.mpr ⟨sym, hmem, rfl⟩
  have hkind' : (symbolForTagging sym).kind = SymbolKind.func
      ∨ (symbolForTagging sym).kind = SymbolKind.method := hkind
  have hmemPass : ∀ t, getPurityTag st (symbolForTagging sym) = some t →
      t ∈ purityPass st := by
    intro t ht
    apply List.mem_filterMap.mpr
    exact ⟨symbolForTagging sym, hft, by rw [if_pos hkind']; exact ht⟩
  refine ⟨?_, ?_, ?_⟩
  · intro hnone
    apply hmemPass
    unfold getPurityTag
    have hnil : calleesWithTags st (symbolForTagging sym).id = [] :=
      (calleesWithTags_eq_nil_iff st _).mpr hnone
    rw [hnil]
    rfl
  · rintro ⟨⟨e, he, hc⟩, hnoio⟩
    apply hmemPass
    unfold getPurityTag
    have hne : ¬ (calleesWithTags st (symbolForTagging sym).id).isEmpty = true := by
      intro hemp
      have hnil := List.isEmpty_iff.mp hemp
      exact ((calleesWithTags_eq_nil_iff st _).mp hnil) e he hc
    rw [if_neg hne]
    have hnoany : ¬ ((calleesWithTags st (symbolForTagging sym).id).any
        (fun x => x.tags.any (fun tg => goStartsWith tg "io:")) = true) := by
      intro hany
      rcases (calleesWithTags_any_io_iff st _).mp hany with
        ⟨e', he', hc', tg, htg, hsym', hio⟩
      have := hnoio e' he' hc' tg htg hsym'
      rw [this] at hio
      cases hio
    rw [if_neg hnoany]
    rfl
  · rintro ⟨e, he, hc, tg, htg, hsym', hio⟩ t ht hts
    rcases List.mem_filterMap.mp ht with ⟨ft, hftmem, hft_eq⟩
    by_cases hk : ft.kind = SymbolKind.func ∨ ft.kind = SymbolKind.method
    · rw [if_pos hk] at hft_eq
      rcases List.mem_map.mp hftmem with ⟨s₀, hs₀, rfl⟩
      have hid : (symbolForTagging s₀).id = s₀.id := rfl
      have hsid : s₀.id = sym.id := by
        have : t.symbolId = (symbolForTagging s₀).id := by
          unfold getPurityTag at hft_eq
          split at hft_eq
          · rcases Option.some.inj hft_eq with rfl; rfl
          · split at hft_eq
            · cases hft_eq
            · rcases Option.some.inj hft_eq with rfl; rfl
        rw [← hid, ← this, hts]
      have hs₀sym : s₀ = sym := huniq s₀ hs₀ sym hmem hsid
      subst hs₀sym
      have hanyio : (calleesWithTags st (symbolForTagging s₀).id).any
          (fun x => x.tags.any (fun tg => goStartsWith tg "io:")) = true := by
        apply (calleesWithTags_any_io_iff st _).mpr
        exact ⟨e, he, hc, tg, htg, hsym', hio⟩
      unfold getPurityTag at hft_eq
      have hne : ¬ (calleesWithTags st (symbolForTagging s₀).id).isEmpty = true := by
        intro hemp
        have hnil := List.isEmpty_iff.mp hemp
        exact ((calleesWithTags_eq_nil_iff st _).mp hnil) e he hc
      rw [if_neg hne, if_pos hanyio] at hft_eq
      cases hft_eq
    · rw [if_neg hk] at hft_eq
      cases hft_eq

/-- Witness for `c4_purity_tagging`: on `storeA`, symbol 2 has no outgoing
    edges and receives the "No outgoing function calls" tag, and symbol 1
    (one outgoing edge, no `io:` tags anywhere) receives the
    "No calls to I/O functions" tag. -/
theorem c4_witness :
    ({ symbolId := 2, tag := "pure-ish",
       reason := "No outgoing function calls" } : TagRow) ∈ purityPass storeA ∧
    ({ symbolId := 1, tag := "pure-ish",
       reason := "No calls to I/O functions" } : TagRow) ∈ purityPass storeA := by
  constructor
  · exact (c4_purity_tagging storeA
      { id := 2, pkgPath := "example.com/app", name := "G", kind := .func,
        recvType := "", file := "a.go", line := 2, sig := "" }
      (by decide) (by decide) (by decide)).1 (by decide)
  · exact ((c4_purity_tagging storeA
      { id := 1, pkgPath := "example.com/app", name := "F", kind := .func,
        recvType := "", file := "a.go", line := 1, sig := "" }
      (by decide) (by decide) (by decide)).2).1 (by decide)

/-! ## Claim C5: spine node / main-path alignment -/

/-- Every callee stored in the loaded map carries its own store row. -/
def allCalleesOk (st : StoreState) (m : List (Nat × List CalleeInfo)) : Prop :=
  ∀ p ∈ m, ∀ c ∈ p.2, findSymbol st c.symbol.id = some c.symbol

/-- Every id of the list resolves in the store. -/
def pathOk (st : StoreState) (l : List Nat) : Prop :=
  ∀ id ∈ l, ∃ s, findSymbol st id = some s

theorem loadList_ok {st : StoreState} {recur : Nat → LoadState → LoadState}
    (hrec : ∀ t s, allCalleesOk st s.allCallees →
      allCalleesOk st (recur t s).allCallees) :
    ∀ (cs : List CalleeInfo) (s : LoadState),
      allCalleesOk st s.allCallees →
      allCalleesOk st (loadList recur cs s).allCallees := by
  intro cs
  induction cs with
  | nil => intro s hs; simpa [loadList] using hs
  | cons c rest ih => intro s hs; exact ih _ (hrec _ _ hs)

theorem loadCalleesRec_ok {st : StoreState} {f : GraphFilter} :
    ∀ (fuel t maxD d : Nat) (s : LoadState),
      allCalleesOk st s.allCallees →
      allCalleesOk st (loadCalleesRec st f fuel t maxD d s).allCallees := by
  intro fuel
  induction fuel with
  | zero => intro t maxD d s hs; simpa [loadCalleesRec] using hs
  | succ fuel ih =>
    intro t maxD d s hs
    rw [loadCalleesRec]
    by_cases h₁ : maxD ≤ d
    · simpa [h₁] using hs
    · rw [if_neg h₁]
      by_cases h₂ : t ∈ s.visited
      · simpa [h₂] using hs
      · rw [if_neg h₂]
        apply loadList_ok (fun t' s' => ih t' maxD (d + 1) s')
        intro p hp c hc
        rcases List.mem_append.mp hp with h | h
        · exact hs p h c hc
        · rcases List.mem_singleton.mp h with rfl
          exact getCallees_symbol c (List.mem_of_mem_filter hc)

theorem lookupCallees_ok {st : StoreState} {m : List (Nat × List CalleeInfo)}
    (hall : allCalleesOk st m) (k : Nat) :
    ∀ c ∈ lookupCallees m k, findSymbol st c.symbol.id = some c.symbol := by
  intro c hc
  unfold lookupCallees at hc
  rcases hfind : m.find? (fun p => p.1 = k) with _ | p
  · rw [hfind] at hc; cases hc
  · rw [hfind] at hc
    exact hall p (List.mem_of_find?_eq_some hfind) c hc

theorem mem_insertScored {x y : ScoredCallee} :
    ∀ (l : List ScoredCallee), x ∈ insertScored y l → x = y ∨ x ∈ l := by
  intro l
  induction l with
  | nil => intro h; simp [insertScored] at h; exact Or.inl h
  | cons z rest ih =>
    intro h
    unfold insertScored at h
    by_cases hc : z.score < y.score
    · rw [if_pos hc] at h
      rcases List.mem_cons.mp h with rfl | h'
      · exact Or.inl rfl
      · exact Or.inr h'
    · rw [if_neg hc] at h
      rcases List.mem_cons.mp h with rfl | h'
      · exact Or.inr (List.mem_cons_self _ _)
      · rcases ih h' with h'' | h''
        · exact Or.inl h''
        · exact Or.inr (List.mem_cons_of_mem _ h'')

theorem mem_sortByScoreDesc {x : ScoredCallee} :
    ∀ {l : List ScoredCallee}, x ∈ sortByScoreDesc l → x ∈ l := by
  intro l
  induction l with
  | nil => intro h; simp [sortByScoreDesc] at h
  | cons y rest ih =>
    intro h
    rcases mem_insertScored (sortByScoreDesc rest) h with rfl | h'
    · exact List.mem_cons_self _ _
    · exact List.mem_cons_of_mem _ (ih h')

theorem firstUnvisited_mem {v : List Nat} :
    ∀ {l : List ScoredCallee} {x : ScoredCallee},
      firstUnvisited v l = some x → x ∈ l := by
  intro l
  induction l with
  | nil => intro x h; cases h
  | cons y rest ih =>
    intro x h
    unfold firstUnvisited at h
    by_cases hv : y.id ∈ v
    · rw [if_pos hv] at h
      exact List.mem_cons_of_mem _ (ih h)
    · rw [if_neg hv] at h
      rcases Option.some.inj h with rfl
      exact List.mem_cons_self _ _

theorem scoreCallees_mem {f : GraphFilter} {rootPkg : String} {visited : List Nat}
    {callees : List CalleeInfo} {x : ScoredCallee}
    (h : x ∈ scoreCallees f rootPkg visited callees) :
    ∃ c ∈ callees, x.id = c.symbol.id := by
  unfold scoreCallees at h
  rcases List.mem_filterMap.mp h with ⟨c, hc, hcx⟩
  by_cases hv : c.symbol.id ∈ visited
  · rw [if_pos hv] at hcx; cases hcx
  · rw [if_neg hv] at hcx
    rcases Option.some.inj hcx with rfl
    exact ⟨c, hc, rfl⟩

theorem dmpLoop_pathOk {st : StoreState} {f : GraphFilter}
    {allC : List (Nat × List CalleeInfo)} {rootPkg : String} {maxD : Nat}
    (hall : allCalleesOk st allC) :
    ∀ (fuel current : Nat) (visited path : List Nat), pathOk st path →
      pathOk st (dmpLoop st f allC rootPkg maxD fuel current visited path) := by
  intro fuel
  induction fuel with
  | zero => intro current visited path hp; simpa [dmpLoop] using hp
  | succ fuel ih =>
    intro current visited path hp
    rw [dmpLoop]
    by_cases h₁ : maxD ≤ path.length
    · simpa [h₁] using hp
    · rw [if_neg h₁]
      by_cases h₂ : (lookupCallees allC current).isEmpty
      · simpa [h₂] using hp
      · rw [if_neg h₂]
        by_cases h₃ : (scoreCallees f rootPkg visited (lookupCallees allC current)).isEmpty
        · simpa [h₃] using hp
        · rw [if_neg h₃]
          rcases hfu : firstUnvisited visited (sortByScoreDesc
              (scoreCallees f rootPkg visited (lookupCallees allC current)))
            with _ | best
          · exact hp
          · apply ih
            intro id hid
            rcases List.mem_append.mp hid with h | h
            · exact hp id h
            · rcases List.mem_singleton.mp h with rfl
              have hb := firstUnvisited_mem hfu
              have hb' := mem_sortByScoreDesc hb
              rcases scoreCallees_mem hb' with ⟨c, hc, hcid⟩
              rw [hcid]
              exact ⟨c.symbol, lookupCallees_ok hall current c hc⟩

theorem spineMainPath_ok (f : GraphFilter) (maxDepth : Nat)
    {st : StoreState} {rootId : Nat} {sym : Symbol}
    (hfind : findSymbol st rootId = some sym) :
    pathOk st (spineMainPath st f rootId maxDepth) := by
  unfold spineMainPath determineMainPath
  rw [hfind]
  apply dmpLoop_pathOk
  · unfold spineAllCallees
    apply loadCalleesRec_ok
    intro p hp
    cases hp
  · intro id hid
    rcases List.mem_singleton.mp hid with rfl
    exact ⟨sym, hfind⟩

theorem buildSpineNodes_align (f : GraphFilter)
    (allC : List (Nat × List CalleeInfo)) (mps : List Nat) {st : StoreState} :
    ∀ (l : List Nat) (i : Nat), pathOk st l →
      (buildSpineNodes st f allC mps l i).1.map (fun n => (n.depth, n.id))
        = l.enumFrom i := by
  intro l
  induction l with
  | nil => intro i _; rfl
  | cons id rest ih =>
    intro i hok
    obtain ⟨s, hs⟩ := hok id (List.mem_cons_self _ _)
    rw [buildSpineNodes, hs]
    dsimp only
    rw [List.enumFrom_cons]
    rw [List.map_cons]
    exact congrArg (List.cons _)
      (ih (i + 1) (fun x hx => hok x (List.mem_cons_of_mem _ hx)))

/-- C5: whenever the root symbol exists in the store (the HTTP handler
    verifies this before calling `BuildSpine`), the ordered node list of the
    spine response is position-for-position aligned with the main path:
    `nodes[i].id = main_path[i]` and `nodes[i].depth = i`. -/
theorem c5_spine_alignment (st : StoreState) (f : GraphFilter)
    (rootId maxDepth : Nat) (sym : Symbol)
    (hfind : findSymbol st rootId = some sym) :
    (buildSpine st f rootId maxDepth).nodes.map (fun n => (n.depth, n.id))
      = (buildSpine st f rootId maxDepth).mainPath.enum := by
  have hok := spineMainPath_ok f maxDepth hfind
  have h := buildSpineNodes_align f
    (spineAllCallees st f rootId (spineMaxDepth maxDepth))
    (spineMainPath st f rootId maxDepth)
    (spineMainPath st f rootId maxDepth) 0 hok
  simpa [buildSpine, List.enum_eq_enumFrom] using h

/-- Witness for `c5_spine_alignment` on the concrete store. -/
theorem c5_witness :
    (buildSpine storeA {} 1 2).nodes.map (fun n => (n.depth, n.id))
      = (buildSpine storeA {} 1 2).mainPath.enum :=
  c5_spine_alignment storeA {} 1 2
    { id := 1, pkgPath := "example.com/app", name := "F", kind := .func,
      recvType := "", file := "a.go", line := 1, sig := "" }
    (by decide)

/-! ## Claim C6: imported-package handler resolution -/

/-- C6 (code bug): `resolveHandlerSymbol` passes a `nil` file to
    `getImportPath`, so the imported-package fallback can never fire.  On a
    store where only the `(import_path, Method, "")` lookup can succeed, the
    handler stays unresolved (`0`), although the file's import table maps
    the alias to the import path and the lookup itself would succeed. -/
theorem c6_import_fallback_dead :
    resolveHandlerSymbol storeC "example.com/app" (.selector "handlers" "HandleX") = 0
    ∧ getSymbolID storeC "example.com/app/handlers" "HandleX" "" = some 7
    ∧ getImportPath (some fileC) "handlers" = "example.com/app/handlers"
    ∧ (∀ aliasName, getImportPath none aliasName = "") :=
  ⟨by decide, by decide, by decide, fun _ => rfl⟩

/-! ## Claim C9: call kinds of extracted edges -/

theorem extractFromCommon_spec {fi : String → String → List Nat}
    {pp : List String} {st : StoreState} {ca : SymCache} {cid : Nat}
    {pos : Option SrcPos} {common : CallCommonM} {bk : CallKind}
    {edge : CallEdgeRow} {kind : CallKind}
    (h : extractFromCommon fi pp st ca cid pos common bk = some (edge, kind)) :
    edge.callKind = kind ∧ (kind = bk ∨ kind = .interface ∨ kind = .funcval) := by
  unfold extractFromCommon at h
  rcases pos with _ | p
  · cases h
  · rcases hsc : common.staticCallee with _ | callee <;> rw [hsc] at h <;> dsimp only at h
    · by_cases hinv : common.isInvoke
      · rw [if_pos hinv] at h
        by_cases hz : resolveInterfaceMethod fi common = 0
        · rw [if_pos hz] at h; cases h
        · rw [if_neg hz] at h
          simp only [Option.some.injEq, Prod.mk.injEq] at h
          obtain ⟨rfl, rfl⟩ := h
          exact ⟨rfl, Or.inr (Or.inl rfl)⟩
      · rw [if_neg hinv] at h
        by_cases hz : traceFuncValue pp st ca common.value = 0
        · rw [if_pos hz] at h; cases h
        · rw [if_neg hz] at h
          simp only [Option.some.injEq, Prod.mk.injEq] at h
          obtain ⟨rfl, rfl⟩ := h
          exact ⟨rfl, Or.inr (Or.inr rfl)⟩
    · by_cases hz : (lookupSymbolID pp st ca (some callee)).1 = 0
      · rw [if_pos hz] at h; cases h
      · rw [if_neg hz] at h
        simp only [Option.some.injEq, Prod.mk.injEq] at h
        obtain ⟨rfl, rfl⟩ := h
        exact ⟨rfl, Or.inl rfl⟩

theorem extractFromInstr_kind {pp : List String} {cache : SymCache} {cid : Nat}
    {pos : Option SrcPos} {common : CallCommonM} {bk : CallKind}
    {edge : CallEdgeRow}
    (h : extractFromInstrCommon pp cache cid pos common bk = some edge) :
    edge.callKind = bk := by
  unfold extractFromInstrCommon at h
  rcases pos with _ | p
  · cases h
  · rcases hsc : common.staticCallee with _ | callee <;> rw [hsc] at h <;>
      dsimp only at h
    · cases h
    · by_cases hz : resolveSymbolID pp cache (some callee) = 0
      · rw [if_pos hz] at h; cases h
      · rw [if_neg hz] at h
        rcases Option.some.inj h with rfl
        rfl

/-- C9: every edge the pipeline's extractor emits carries a call kind in
    {static, interface, funcval, defer, go} — never `unknown`; an
    unresolvable function-value call is skipped (no edge); and the older
    extractor likewise never emits an `unknown` edge. -/
theorem c9_no_unknown_kind :
    (∀ (findImpls : String → String → List Nat) (projectPkgs : List String)
       (st : StoreState) (cache : SymCache) (callerId : Nat) (instr : InstrM)
       (edge : CallEdgeRow) (kind : CallKind),
       extractCallEdge findImpls projectPkgs st cache callerId instr
           = some (edge, kind) →
       (kind = .static ∨ kind = .interface ∨ kind = .funcval
          ∨ kind = .deferred ∨ kind = .goroutine)
         ∧ kind ≠ .unknown ∧ edge.callKind = kind) ∧
    (∀ (findImpls : String → String → List Nat) (projectPkgs : List String)
       (st : StoreState) (cache : SymCache) (callerId : Nat)
       (pos : Option SrcPos) (common : CallCommonM) (baseKind : CallKind),
       common.staticCallee = none → common.isInvoke = false →
       traceFuncValue projectPkgs st cache common.value = 0 →
       extractFromCommon findImpls projectPkgs st cache callerId pos common
         baseKind = none) ∧
    (∀ (projectPkgs : List String) (cache : SymCache) (callerId : Nat)
       (instr : InstrM) (edge : CallEdgeRow),
       extractCallFromInstruction projectPkgs cache callerId instr = some edge →
       (edge.callKind = .static ∨ edge.callKind = .deferred
          ∨ edge.callKind = .goroutine) ∧ edge.callKind ≠ .unknown) := by
  refine ⟨?_, ?_, ?_⟩
  · intro findImpls projectPkgs st cache callerId instr edge kind h
    have hclose : edge.callKind = kind
        ∧ (kind = .static ∨ kind = .interface ∨ kind = .funcval
            ∨ kind = .deferred ∨ kind = .goroutine) := by
      rcases instr with ⟨pos, common⟩ | ⟨pos, common⟩ | ⟨pos, common⟩ | _
      · rcases extractFromCommon_spec h with ⟨he, hk⟩
        rcases hk with rfl | rfl | rfl
        · exact ⟨he, Or.inl rfl⟩
        · exact ⟨he, Or.inr (Or.inl rfl)⟩
        · exact ⟨he, Or.inr (Or.inr (Or.inl rfl))⟩
      · rcases extractFromCommon_spec h with ⟨he, hk⟩
        rcases hk with rfl | rfl | rfl
        · exact ⟨he, Or.inr (Or.inr (Or.inr (Or.inr rfl)))⟩
        · exact ⟨he, Or.inr (Or.inl rfl)⟩
        · exact ⟨he, Or.inr (Or.inr (Or.inl rfl))⟩
      · rcases extractFromCommon_spec h with ⟨he, hk⟩
        rcases hk with rfl | rfl | rfl
        · exact ⟨he, Or.inr (Or.inr (Or.inr (Or.inl rfl)))⟩
        · exact ⟨he, Or.inr (Or.inl rfl)⟩
        · exact ⟨he, Or.inr (Or.inr (Or.inl rfl))⟩
      · cases h
    refine ⟨hclose.2, ?_, hclose.1⟩
    rcases hclose.2 with rfl | rfl | rfl | rfl | rfl <;> decide
  · intro findImpls projectPkgs st cache callerId pos common baseKind hsc hinv htr
    unfold extractFromCommon
    rcases pos with _ | p
    · rfl
    · rw [hsc]
      dsimp only
      rw [if_neg (by simp [hinv]), if_pos htr]
  · intro projectPkgs cache callerId instr edge h
    have hclose : edge.callKind = .static ∨ edge.callKind = .deferred
        ∨ edge.callKind = .goroutine := by
      rcases instr with ⟨pos, common⟩ | ⟨pos, common⟩ | ⟨pos, common⟩ | _
      · exact Or.inl (extractFromInstr_kind h)
      · exact Or.inr (Or.inr (extractFromInstr_kind h))
      · exact Or.inr (Or.inl (extractFromInstr_kind h))
      · cases h
    refine ⟨hclose, ?_⟩
    rcases hclose with hk | hk | hk <;> rw [hk] <;> decide

/-- Witness for `c9_no_unknown_kind` at a concrete static call. -/
theorem c9_witness :
    (CallKind.static = .static ∨ CallKind.static = .interface
       ∨ CallKind.static = .funcval ∨ CallKind.static = .deferred
       ∨ CallKind.static = .goroutine)
      ∧ CallKind.static ≠ .unknown ∧ edgeC9.callKind = CallKind.static :=
  c9_no_unknown_kind.1 (fun _ _ => []) ["example.com/app"] storeA [] 1 instrC9
    edgeC9 CallKind.static (by decide)

/-! ## Claim C10: cobra detection on whitespace-only `Use` -/

/-- C10 (code bug): the command literal `&cobra.Command{Use: " ", Run:
    runServe}` passes `detectCobra`'s collection guard (`Use` is non-empty
    and a handler is set) and its handler resolves, yet processing evaluates
    `strings.Fields(" ")[0]`, which panics — detection does not complete. -/
theorem c10_whitespace_use_panics :
    cobraCollects cmdWhitespaceUse = true ∧
    resolveHandlerSymbol storeD "example.com/app" (.ident "runServe") = 3 ∧
    processCobraCommand storeD "example.com/app" cmdWhitespaceUse
      = .error "runtime error: index out of range [0] with length 0" :=
  ⟨by decide, by decide, rfl⟩

end FlowLens
